import Mathlib

/-!
Shallow embedding of the multiplayer blackjack engine
(`lambda_handlers/blackjack_models.py`) and verification of the frozen
claims about its specification.

Conventions of the embedding:
* Python `int` is modelled as `Int` (balances, bets) or `Nat` (counts,
  seat numbers, hand values, which are always non-negative in the source).
* A Python method that mutates `self` and may `raise` is modelled as a pure
  function `GameState → Option GameError × GameState`; the returned state is
  the state as mutated up to the point of the raise (Python exceptions leave
  earlier in-place mutations visible), and `none` means the method returned
  normally.
* Methods returning `bool` without raising (`add_player`, `place_bet`)
  are modelled as `... → Bool × GameState`.
* `random.shuffle` is modelled by nondeterminism: any permutation of the
  six-deck shoe may be produced, so shuffling functions take the shuffled
  list as an explicit argument constrained by `List.Perm` at reachability.
-/

namespace Blackjack

/-- The four suits of `Suit(Enum)`. -/
inductive Suit where
  | hearts | diamonds | clubs | spades
deriving DecidableEq, Repr

/-- Card ranks; the source stores ranks as the strings in `Deck.RANKS`
(`'A','2',...,'10','J','Q','K'`), modelled here as a closed inductive since
every card the engine constructs draws its rank from that list. -/
inductive Rank where
  | ace | r2 | r3 | r4 | r5 | r6 | r7 | r8 | r9 | r10 | jack | queen | king
deriving DecidableEq, Repr

/-- A playing card (`Card`). -/
structure Card where
  rank : Rank
  suit : Suit
deriving DecidableEq, Repr

/-- `Card.value`: face cards are 10, aces initially 11, numeric ranks their
face value. -/
def cardValue (c : Card) : Nat :=
  match c.rank with
  | .jack | .queen | .king => 10
  | .ace => 11
  | .r2 => 2 | .r3 => 3 | .r4 => 4 | .r5 => 5 | .r6 => 6
  | .r7 => 7 | .r8 => 8 | .r9 => 9 | .r10 => 10

/-- The rank list `Deck.RANKS` in source order. -/
def deckRanks : List Rank :=
  [.ace, .r2, .r3, .r4, .r5, .r6, .r7, .r8, .r9, .r10, .jack, .queen, .king]

/-- The suit iteration order of `Suit(Enum)`. -/
def suitOrder : List Suit := [.hearts, .diamonds, .clubs, .spades]

/-- `Deck.reset`: one standard 52-card deck,
`[Card(rank, suit) for suit in Suit for rank in RANKS]`. -/
def singleDeck : List Card :=
  suitOrder.flatMap (fun s => deckRanks.map (fun r => ⟨r, s⟩))

/-- The 6-deck shoe built by `BlackjackGameState.__init__` before shuffling
(one fresh deck extended with five more). -/
def sixDeckShoe : List Card :=
  singleDeck ++ singleDeck ++ singleDeck ++ singleDeck ++ singleDeck ++ singleDeck

/-- The ace-adjustment loop of `BlackjackHand.calculate_value`:
`while value > 21 and aces > 0: value -= 10; aces -= 1`. -/
def adjustForAces : Nat → Nat → Nat
  | value, 0 => value
  | value, aces + 1 => if 21 < value then adjustForAces (value - 10) aces else value

/-- The accumulation pass of `calculate_value`: total with every ace counted
as 11, paired with the number of aces seen. -/
def rawCount (cards : List Card) : Nat × Nat :=
  cards.foldl
    (fun acc c =>
      if c.rank = .ace then (acc.1 + 11, acc.2 + 1) else (acc.1 + cardValue c, acc.2))
    (0, 0)

/-- `BlackjackHand.calculate_value`. -/
def calculateValue (cards : List Card) : Nat :=
  adjustForAces (rawCount cards).1 (rawCount cards).2

/-- `BlackjackHand.is_bust`. -/
def isBust (cards : List Card) : Bool :=
  21 < calculateValue cards

/-- `BlackjackHand.is_blackjack`: 21 with exactly 2 cards. -/
def isBlackjack (cards : List Card) : Bool :=
  cards.length == 2 && calculateValue cards == 21

/-- Hard total of a hand: every ace counted as 1 (used only to state the
specification of `calculate_value`, not by the engine). -/
def hardTotal (cards : List Card) : Nat :=
  cards.foldl (fun acc c => if c.rank = .ace then acc + 1 else acc + cardValue c) 0

/-- Number of aces in a hand. -/
def aceCount (cards : List Card) : Nat :=
  cards.countP (fun c => c.rank = .ace)

/-- `PlayerState`: one seat's per-round state, with the source's fields. -/
structure PlayerState where
  player_number : Nat
  user_id : String
  balance : Int
  hand : List Card
  split_hand : Option (List Card)
  current_bet : Int
  split_bet : Int
  has_bet : Bool
  has_acted : Bool
  stood : Bool
  busted : Bool
  split_stood : Bool
  split_busted : Bool
  result : Option String
  split_result : Option String
  can_double_down : Bool
  can_split : Bool
  has_split : Bool
  playing_split_hand : Bool
deriving DecidableEq, Repr

/-- `PlayerState.__init__`. -/
def initPlayer (player_number : Nat) (user_id : String) (balance : Int) : PlayerState :=
  { player_number, user_id, balance
    hand := [], split_hand := none, current_bet := 0, split_bet := 0
    has_bet := false, has_acted := false, stood := false, busted := false
    split_stood := false, split_busted := false, result := none, split_result := none
    can_double_down := false, can_split := false, has_split := false
    playing_split_hand := false }

/-- `BlackjackGameState`; the player dict is an insertion-ordered
association list, as Python dicts preserve insertion order. -/
structure GameState where
  deck : List Card
  dealer_hand : List Card
  players : List (Nat × PlayerState)
  phase : String
  current_player_turn : Option Nat
  round_active : Bool
deriving DecidableEq, Repr

/-- The exceptions/failure returns the action methods can produce, one
constructor per distinct raise site kind. -/
inductive GameError where
  | invalidPhase
  | notYourTurn
  | cannotStartRound
  | cannotSplitHand
  | insufficientBalance
  | alreadySplit
  | cannotDoubleDown
  | hasNotSplit
  | mustFinishFirstHand
  | deckExhausted
  | keyMissing
  | indexOutOfRange
  | missingSplitHand
deriving DecidableEq, Repr

/-- Key lookup in the insertion-ordered seat dict. -/
def lookupSeat : List (Nat × PlayerState) → Nat → Option PlayerState
  | [], _ => none
  | kv :: rest, n => if kv.1 = n then some kv.2 else lookupSeat rest n

/-- Replacing the value stored under a key, keeping dict order. -/
def updateSeat : List (Nat × PlayerState) → Nat → PlayerState → List (Nat × PlayerState)
  | [], _, _ => []
  | kv :: rest, n, p =>
    if kv.1 = n then (n, p) :: updateSeat rest n p else kv :: updateSeat rest n p

/-- `self.players[n]` as a lookup that can fail (Python raises `KeyError`). -/
def getPlayer (s : GameState) (n : Nat) : Option PlayerState :=
  lookupSeat s.players n

/-- Writing back the (in Python, aliased and mutated in place) player object
for seat `n`; seats keep their position in the insertion-ordered dict. -/
def setPlayer (s : GameState) (n : Nat) (p : PlayerState) : GameState :=
  { s with players := updateSeat s.players n p }

/-- `Deck.deal(1)[0]`: take the first card, failing on an empty deck. -/
def dealOne : List Card → Option (Card × List Card)
  | [] => none
  | c :: rest => some (c, rest)

/-- `BlackjackGameState.__init__` with the result of the initial
`random.shuffle` supplied explicitly. -/
def initGame (shuffled : List Card) : GameState :=
  { deck := shuffled, dealer_hand := [], players := [], phase := "waiting",
    current_player_turn := none, round_active := false }

/-- `add_player`. -/
def add_player (s : GameState) (n : Nat) (uid : String) (balance : Int) :
    Bool × GameState :=
  if 5 ≤ s.players.length then (false, s)
  else if (lookupSeat s.players n).isSome then (false, s)
  else (true, { s with players := s.players ++ [(n, initPlayer n uid balance)] })

/-- The per-seat reset at the top of `start_betting_phase`. -/
def resetForRound (p : PlayerState) : PlayerState :=
  { p with
    hand := [], split_hand := none, current_bet := 0, split_bet := 0,
    has_bet := false, has_acted := false, stood := false, busted := false,
    split_stood := false, split_busted := false, result := none, split_result := none,
    can_double_down := false, can_split := false, has_split := false,
    playing_split_hand := false }

/-- `start_betting_phase`; `freshShoe` is the shuffled six-deck shoe used
when the reshuffle threshold fires. -/
def start_betting_phase (s : GameState) (freshShoe : List Card) : GameState :=
  if s.players.isEmpty then s
  else
    let s₁ : GameState := { s with
      players := s.players.map (fun kv => (kv.1, resetForRound kv.2)),
      dealer_hand := [], phase := "betting", current_player_turn := none,
      round_active := true }
    if s₁.deck.length < 52 then { s₁ with deck := freshShoe } else s₁

/-- `place_bet`. -/
def place_bet (s : GameState) (n : Nat) (amount : Int) : Bool × GameState :=
  match getPlayer s n with
  | none => (false, s)
  | some p =>
    if amount ≤ 0 || p.balance < amount then (false, s)
    else (true, setPlayer s n
      { p with current_bet := amount, balance := p.balance - amount, has_bet := true })

/-- `all_bets_placed`. -/
def all_bets_placed (s : GameState) : Bool :=
  s.players.all (fun kv => kv.2.has_bet)

/-- `sorted(self.players.keys())`. -/
def sortedSeatNumbers (s : GameState) : List Nat :=
  List.insertionSort (· ≤ ·) (s.players.map Prod.fst)

/-- The pending test of `_get_next_player_turn`:
`not has_acted and not busted and not stood`, on primary-hand flags. -/
def pendingPrimary (p : PlayerState) : Bool :=
  !p.has_acted && !p.busted && !p.stood

/-- Python's `list.index`: position of the first occurrence, or `None` for
the `ValueError` case. -/
def indexOfSeat : List Nat → Nat → Option Nat
  | [], _ => none
  | k :: ks, c => if k = c then some 0 else (indexOfSeat ks c).map (· + 1)

/-- Whether a seat number counts as still needing to act in the scan of
`_get_next_player_turn`. -/
def seatPending (s : GameState) (k : Nat) : Bool :=
  match getPlayer s k with
  | some p => pendingPrimary p
  | none => false

/-- `_get_next_player_turn`. -/
def get_next_player_turn (s : GameState) (current : Option Nat) : Option Nat :=
  let nums := sortedSeatNumbers s
  let start :=
    match current with
    | none => 0
    | some c =>
      match indexOfSeat nums c with
      | some i => i + 1
      | none => 0
  (nums.drop start).find? (fun k => seatPending s k)

/-- One dealing sweep over the given seats (ascending seat order), giving one
card to each seat that has placed a bet. -/
def dealPass : GameState → List Nat → Option GameError × GameState
  | s, [] => (none, s)
  | s, k :: ks =>
    match getPlayer s k with
    | none => dealPass s ks
    | some p =>
      if p.has_bet then
        match dealOne s.deck with
        | none => (some .deckExhausted, s)
        | some (c, rest) =>
          dealPass (setPlayer { s with deck := rest } k { p with hand := p.hand ++ [c] }) ks
      else dealPass s ks

/-- One iteration of the dealing loop in `start_playing_phase`: a card to
every betting seat, then one to the dealer. -/
def dealRound (s : GameState) : Option GameError × GameState :=
  match dealPass s (sortedSeatNumbers s) with
  | (some e, s₁) => (some e, s₁)
  | (none, s₁) =>
    match dealOne s₁.deck with
    | none => (some .deckExhausted, s₁)
    | some (c, rest) =>
      (none, { s₁ with deck := rest, dealer_hand := s₁.dealer_hand ++ [c] })

/-- Early resolution of one seat when the dealer is dealt a natural. -/
def resolveDealerNatural (p : PlayerState) : PlayerState :=
  if p.has_bet then
    let p₁ :=
      if isBlackjack p.hand then
        { p with result := some "push", balance := p.balance + p.current_bet }
      else { p with result := some "lose" }
    { p₁ with has_acted := true, stood := true }
  else p

/-- Per-seat option flags set by `start_playing_phase` when the dealer has no
natural. The source reads `hand.cards[0]` and `hand.cards[1]`, which never
fails there because every betting seat was just dealt two cards. -/
def setInitialOptions (p : PlayerState) : PlayerState :=
  if p.has_bet then
    let canSplitNow : Bool :=
      match p.hand.head?, p.hand[1]? with
      | some c0, some c1 =>
        c0.rank == c1.rank && decide (p.current_bet ≤ p.balance)
      | _, _ => false
    let p₁ := { p with can_double_down := true, can_split := canSplitNow }
    if isBlackjack p₁.hand then { p₁ with has_acted := true, stood := true } else p₁
  else p

/-- `start_playing_phase`. -/
def start_playing_phase (s : GameState) : Option GameError × GameState :=
  if s.phase != "betting" || !all_bets_placed s then (some .cannotStartRound, s)
  else
    match dealRound s with
    | (some e, s₁) => (some e, s₁)
    | (none, s₁) =>
      match dealRound s₁ with
      | (some e, s₂) => (some e, s₂)
      | (none, s₂) =>
        if isBlackjack s₂.dealer_hand then
          (none, { s₂ with
            players := s₂.players.map (fun kv => (kv.1, resolveDealerNatural kv.2)),
            phase := "round_over", round_active := false })
        else
          let s₃ : GameState :=
            { s₂ with
              players := s₂.players.map (fun kv => (kv.1, setInitialOptions kv.2)),
              phase := "playing" }
          (none, { s₃ with current_player_turn := get_next_player_turn s₃ none })

/-- `hit_split`. -/
def hit_split (s : GameState) (n : Nat) : Option GameError × GameState :=
  if s.phase != "playing" then (some .invalidPhase, s)
  else if s.current_player_turn != some n then (some .notYourTurn, s)
  else
    match getPlayer s n with
    | none => (some .keyMissing, s)
    | some p =>
      if !p.has_split then (some .hasNotSplit, s)
      else if !p.playing_split_hand then (some .mustFinishFirstHand, s)
      else
        match p.split_hand with
        | none => (some .missingSplitHand, s)
        | some sh =>
          match dealOne s.deck with
          | none => (some .deckExhausted, s)
          | some (c, rest) =>
            let sh₁ := sh ++ [c]
            let p₁ := { p with split_hand := some sh₁ }
            let s₁ := setPlayer { s with deck := rest } n p₁
            if isBust sh₁ then
              let p₂ := { p₁ with
                split_busted := true, split_result := some "lose",
                has_acted := true }
              let s₂ := setPlayer s₁ n p₂
              let nt := get_next_player_turn s₂ (some n)
              let s₃ := { s₂ with current_player_turn := nt }
              (none, if nt.isNone then { s₃ with phase := "dealer_turn" } else s₃)
            else (none, s₁)

/-- `hit`. -/
def hit (s : GameState) (n : Nat) : Option GameError × GameState :=
  if s.phase != "playing" then (some .invalidPhase, s)
  else if s.current_player_turn != some n then (some .notYourTurn, s)
  else
    match getPlayer s n with
    | none => (some .keyMissing, s)
    | some p =>
      if p.has_split && p.playing_split_hand then hit_split s n
      else
        match dealOne s.deck with
        | none => (some .deckExhausted, s)
        | some (c, rest) =>
          let hand₁ := p.hand ++ [c]
          let p₁ := { p with hand := hand₁, can_double_down := false, can_split := false }
          let s₁ := setPlayer { s with deck := rest } n p₁
          if isBust hand₁ then
            let p₂ := { p₁ with busted := true, result := some "lose" }
            if p₂.has_split then
              (none, setPlayer s₁ n { p₂ with playing_split_hand := true })
            else
              let p₃ := { p₂ with has_acted := true }
              let s₂ := setPlayer s₁ n p₃
              let nt := get_next_player_turn s₂ (some n)
              let s₃ := { s₂ with current_player_turn := nt }
              (none, if nt.isNone then { s₃ with phase := "dealer_turn" } else s₃)
          else (none, s₁)

/-- `stand_split`. -/
def stand_split (s : GameState) (n : Nat) : Option GameError × GameState :=
  if s.phase != "playing" then (some .invalidPhase, s)
  else if s.current_player_turn != some n then (some .notYourTurn, s)
  else
    match getPlayer s n with
    | none => (some .keyMissing, s)
    | some p =>
      if !p.has_split then (some .hasNotSplit, s)
      else if !p.playing_split_hand then (some .mustFinishFirstHand, s)
      else
        let s₁ := setPlayer s n { p with split_stood := true, has_acted := true }
        let nt := get_next_player_turn s₁ (some n)
        let s₂ := { s₁ with current_player_turn := nt }
        (none, if nt.isNone then { s₂ with phase := "dealer_turn" } else s₂)

/-- `stand`. -/
def stand (s : GameState) (n : Nat) : Option GameError × GameState :=
  if s.phase != "playing" then (some .invalidPhase, s)
  else if s.current_player_turn != some n then (some .notYourTurn, s)
  else
    match getPlayer s n with
    | none => (some .keyMissing, s)
    | some p =>
      if p.has_split && p.playing_split_hand then stand_split s n
      else
        let p₁ := { p with stood := true }
        if p₁.has_split then
          (none, setPlayer s n { p₁ with playing_split_hand := true })
        else
          let p₂ := { p₁ with has_acted := true }
          let s₁ := setPlayer s n p₂
          let nt := get_next_player_turn s₁ (some n)
          let s₂ := { s₁ with current_player_turn := nt }
          (none, if nt.isNone then { s₂ with phase := "dealer_turn" } else s₂)

/-- `double_down`. -/
def double_down (s : GameState) (n : Nat) : Option GameError × GameState :=
  if s.phase != "playing" then (some .invalidPhase, s)
  else if s.current_player_turn != some n then (some .notYourTurn, s)
  else
    match getPlayer s n with
    | none => (some .keyMissing, s)
    | some p =>
      if p.has_split && p.playing_split_hand then
        if !p.can_double_down then (some .cannotDoubleDown, s)
        else if p.balance < p.split_bet then (some .insufficientBalance, s)
        else
          let p₁ := { p with balance := p.balance - p.split_bet, split_bet := p.split_bet * 2 }
          let s₁ := setPlayer s n p₁
          match p₁.split_hand with
          | none => (some .missingSplitHand, s₁)
          | some sh =>
            match dealOne s₁.deck with
            | none => (some .deckExhausted, s₁)
            | some (c, rest) =>
              let sh₁ := sh ++ [c]
              let p₂ := { p₁ with
                split_hand := some sh₁, can_double_down := false,
                can_split := false }
              let p₃ :=
                if isBust sh₁ then
                  { p₂ with split_busted := true, split_result := some "lose" }
                else { p₂ with split_stood := true }
              let p₄ := { p₃ with has_acted := true }
              let s₂ := setPlayer { s₁ with deck := rest } n p₄
              let nt := get_next_player_turn s₂ (some n)
              let s₃ := { s₂ with current_player_turn := nt }
              (none, if nt.isNone then { s₃ with phase := "dealer_turn" } else s₃)
      else
        if !p.can_double_down then (some .cannotDoubleDown, s)
        else if p.balance < p.current_bet then (some .insufficientBalance, s)
        else
          let p₁ := { p with
            balance := p.balance - p.current_bet,
            current_bet := p.current_bet * 2 }
          match dealOne s.deck with
          | none => (some .deckExhausted, setPlayer s n p₁)
          | some (c, rest) =>
            let hand₁ := p₁.hand ++ [c]
            let p₂ := { p₁ with hand := hand₁, can_double_down := false, can_split := false }
            let p₃ :=
              if isBust hand₁ then { p₂ with busted := true, result := some "lose" }
              else { p₂ with stood := true }
            let s₁ := setPlayer { s with deck := rest } n p₃
            if p₃.has_split then
              (none, setPlayer s₁ n { p₃ with playing_split_hand := true })
            else
              let p₄ := { p₃ with has_acted := true }
              let s₂ := setPlayer s₁ n p₄
              let nt := get_next_player_turn s₂ (some n)
              let s₃ := { s₂ with current_player_turn := nt }
              (none, if nt.isNone then { s₃ with phase := "dealer_turn" } else s₃)

/-- `split`. -/
def split (s : GameState) (n : Nat) : Option GameError × GameState :=
  if s.phase != "playing" then (some .invalidPhase, s)
  else if s.current_player_turn != some n then (some .notYourTurn, s)
  else
    match getPlayer s n with
    | none => (some .keyMissing, s)
    | some p =>
      if !p.can_split then (some .cannotSplitHand, s)
      else if p.balance < p.current_bet then (some .insufficientBalance, s)
      else if p.has_split then (some .alreadySplit, s)
      else
        match p.hand with
        | c0 :: c1 :: rest =>
          let p₁ := { p with
            hand := c0 :: rest, split_hand := some [c1],
            balance := p.balance - p.current_bet, split_bet := p.current_bet }
          let s₁ := setPlayer s n p₁
          match dealOne s₁.deck with
          | none => (some .deckExhausted, s₁)
          | some (cA, dA) =>
            let p₂ := { p₁ with hand := (c0 :: rest) ++ [cA] }
            let s₂ := setPlayer { s₁ with deck := dA } n p₂
            match dealOne s₂.deck with
            | none => (some .deckExhausted, s₂)
            | some (cB, dB) =>
              let p₃ := { p₂ with
                split_hand := some [c1, cB],
                has_split := true, can_split := false,
                can_double_down := true, playing_split_hand := false }
              let p₄ := if isBlackjack p₃.hand then { p₃ with stood := true } else p₃
              (none, setPlayer { s₂ with deck := dB } n p₄)
        | _ => (some .indexOutOfRange, s)

/-- The dealer drawing loop of `dealer_play`:
`while calculate_value() < 17: add_card(deal(1)[0])`. -/
def dealerDraw : List Card → List Card → Option GameError × (List Card × List Card)
  | dealer, [] =>
    if calculateValue dealer < 17 then (some .deckExhausted, (dealer, []))
    else (none, (dealer, []))
  | dealer, c :: rest =>
    if calculateValue dealer < 17 then dealerDraw (dealer ++ [c]) rest
    else (none, (dealer, c :: rest))

/-- `int(int(bet) * 2.5)`: the 3:2 natural payout. Python truncates the float
`bet * 2.5` toward zero, which `Int.div (5 * bet) 2` reproduces exactly
(the float product is exact for every realistic chip amount). -/
def blackjackPayout (bet : Int) : Int := Int.tdiv (5 * bet) 2

/-- The primary-hand settlement of `dealer_play` for one seat. -/
def settlePrimary (dealerValue : Nat) (dealerBusted dealerNatural : Bool)
    (p : PlayerState) : PlayerState :=
  match p.result with
  | some _ => p
  | none =>
    let playerValue := calculateValue p.hand
    let playerNatural := isBlackjack p.hand && !p.has_split
    if playerNatural && dealerNatural then
      { p with result := some "push", balance := p.balance + p.current_bet }
    else if playerNatural then
      { p with
        result := some "blackjack",
        balance := p.balance + blackjackPayout p.current_bet }
    else if dealerNatural then { p with result := some "lose" }
    else if dealerBusted then
      { p with result := some "win", balance := p.balance + p.current_bet * 2 }
    else if playerValue < dealerValue then { p with result := some "lose" }
    else if dealerValue < playerValue then
      { p with result := some "win", balance := p.balance + p.current_bet * 2 }
    else { p with result := some "push", balance := p.balance + p.current_bet }

/-- The split-hand settlement of `dealer_play` for one seat. The source reads
`player.split_hand.calculate_value()` directly, relying on the invariant that
a seat with `has_split` always carries a split hand; `getD []` mirrors that
read under the same invariant. -/
def settleSplit (dealerValue : Nat) (dealerBusted dealerNatural : Bool)
    (p : PlayerState) : PlayerState :=
  if p.has_split && p.split_result.isNone then
    let splitValue := calculateValue (p.split_hand.getD [])
    if dealerNatural then { p with split_result := some "lose" }
    else if dealerBusted then
      { p with split_result := some "win", balance := p.balance + p.split_bet * 2 }
    else if splitValue < dealerValue then { p with split_result := some "lose" }
    else if dealerValue < splitValue then
      { p with split_result := some "win", balance := p.balance + p.split_bet * 2 }
    else { p with split_result := some "push", balance := p.balance + p.split_bet }
  else p

/-- `dealer_play`. -/
def dealer_play (s : GameState) : Option GameError × GameState :=
  if s.phase != "dealer_turn" then (some .invalidPhase, s)
  else
    match dealerDraw s.dealer_hand s.deck with
    | (some e, (dealer, deck)) => (some e, { s with dealer_hand := dealer, deck := deck })
    | (none, (dealer, deck)) =>
      let dealerValue := calculateValue dealer
      let dealerBusted := isBust dealer
      let dealerNatural := isBlackjack dealer
      (none, { s with
        dealer_hand := dealer, deck := deck,
        players := s.players.map (fun kv =>
          (kv.1, settleSplit dealerValue dealerBusted dealerNatural
                   (settlePrimary dealerValue dealerBusted dealerNatural kv.2))),
        phase := "round_over", round_active := false })

/-! ### Serialization (`to_dict` / `from_dict`) -/

/-- `Card.to_dict`: `{'rank': ..., 'suit': suit.value}` with both values
strings. -/
def rankString : Rank → String
  | .ace => "A" | .r2 => "2" | .r3 => "3" | .r4 => "4" | .r5 => "5" | .r6 => "6"
  | .r7 => "7" | .r8 => "8" | .r9 => "9" | .r10 => "10"
  | .jack => "J" | .queen => "Q" | .king => "K"

/-- `Suit.value`. -/
def suitString : Suit → String
  | .hearts => "hearts" | .diamonds => "diamonds" | .clubs => "clubs"
  | .spades => "spades"

/-- `Card.to_dict`. -/
def Card.to_dict (c : Card) : String × String :=
  (rankString c.rank, suitString c.suit)

/-- Parsing a rank string back into the closed rank type; `none` when no
rank of `Deck.RANKS` matches. -/
def rankFromString (s : String) : Option Rank :=
  deckRanks.find? (fun r => rankString r == s)

/-- `Suit(value)`, which raises `ValueError` (here `none`) on unknown
strings. -/
def suitFromString (s : String) : Option Suit :=
  suitOrder.find? (fun u => suitString u == s)

/-- `Card.from_dict`. -/
def Card.from_dict (d : String × String) : Option Card :=
  match rankFromString d.1, suitFromString d.2 with
  | some r, some u => some ⟨r, u⟩
  | _, _ => none

/-- Deserializing a serialized hand, failing if any card fails. -/
def seqCards : List (String × String) → Option (List Card)
  | [] => some []
  | d :: ds =>
    match Card.from_dict d, seqCards ds with
    | some c, some cs => some (c :: cs)
    | _, _ => none

/-- The per-seat dict `PlayerState.to_dict` emits (all fields present). -/
structure PlayerDict where
  player_number : Nat
  user_id : String
  balance : Int
  hand : List (String × String)
  split_hand : Option (List (String × String))
  current_bet : Int
  split_bet : Int
  has_bet : Bool
  has_acted : Bool
  stood : Bool
  busted : Bool
  split_stood : Bool
  split_busted : Bool
  result : Option String
  split_result : Option String
  can_double_down : Bool
  can_split : Bool
  has_split : Bool
  playing_split_hand : Bool
deriving DecidableEq, Repr

/-- `PlayerState.to_dict`. A `BlackjackHand` object is always truthy in
Python, so an empty split hand serializes as `[]`, not `None`. -/
def PlayerState.to_dict (p : PlayerState) : PlayerDict :=
  { player_number := p.player_number, user_id := p.user_id, balance := p.balance,
    hand := p.hand.map Card.to_dict,
    split_hand := p.split_hand.map (fun h => h.map Card.to_dict),
    current_bet := p.current_bet, split_bet := p.split_bet, has_bet := p.has_bet,
    has_acted := p.has_acted, stood := p.stood, busted := p.busted,
    split_stood := p.split_stood, split_busted := p.split_busted,
    result := p.result, split_result := p.split_result,
    can_double_down := p.can_double_down, can_split := p.can_split,
    has_split := p.has_split, playing_split_hand := p.playing_split_hand }

/-- `PlayerState.from_dict`. The split hand is restored through
`if data.get('split_hand')`, so both `None` and the falsy empty list `[]`
come back as `None`. -/
def PlayerState.from_dict (d : PlayerDict) : Option PlayerState :=
  match seqCards d.hand with
  | none => none
  | some hand =>
    let splitParsed : Option (Option (List Card)) :=
      match d.split_hand with
      | none => some none
      | some [] => some none
      | some l =>
        match seqCards l with
        | none => none
        | some cs => some (some cs)
    match splitParsed with
    | none => none
    | some sh =>
      some { player_number := d.player_number, user_id := d.user_id,
             balance := d.balance, hand := hand, split_hand := sh,
             current_bet := d.current_bet, split_bet := d.split_bet,
             has_bet := d.has_bet, has_acted := d.has_acted, stood := d.stood,
             busted := d.busted, split_stood := d.split_stood,
             split_busted := d.split_busted, result := d.result,
             split_result := d.split_result,
             can_double_down := d.can_double_down, can_split := d.can_split,
             has_split := d.has_split,
             playing_split_hand := d.playing_split_hand }

/-- The snapshot dict `BlackjackGameState.to_dict` emits. Python keys the
player map by `str(num)` and `from_dict` recovers the number with `int(...)`;
as that decimal round-trip is a bijection the model keeps `Nat` keys. -/
structure GameStateDict where
  dealer_hand : List (String × String)
  players : List (Nat × PlayerDict)
  phase : String
  current_player_turn : Option Nat
  round_active : Bool
  cards_remaining : Nat
  deck : Option (List (String × String))
deriving DecidableEq, Repr

/-- `BlackjackGameState.to_dict(include_deck)`; the deck is present only in
the durable form. -/
def GameState.to_dict (include_deck : Bool) (s : GameState) : GameStateDict :=
  { dealer_hand := s.dealer_hand.map Card.to_dict,
    players := s.players.map (fun kv => (kv.1, kv.2.to_dict)),
    phase := s.phase, current_player_turn := s.current_player_turn,
    round_active := s.round_active, cards_remaining := s.deck.length,
    deck := if include_deck then some (s.deck.map Card.to_dict) else none }

/-- Deserializing all seats in dict order, failing if any seat fails. -/
def seqPlayers : List (Nat × PlayerDict) → Option (List (Nat × PlayerState))
  | [] => some []
  | (k, d) :: ds =>
    match PlayerState.from_dict d, seqPlayers ds with
    | some p, some ps => some ((k, p) :: ps)
    | _, _ => none

/-- `BlackjackGameState.from_dict`: builds a fresh state, then overwrites
the deck with `data.get('deck', [])`, the dealer hand, the players (in dict
order), the phase, the turn and `round_active`. -/
def GameState.from_dict (d : GameStateDict) : Option GameState :=
  match seqCards (d.deck.getD []) with
  | none => none
  | some deck =>
    match seqCards d.dealer_hand with
    | none => none
    | some dealer =>
      match seqPlayers d.players with
      | none => none
      | some players =>
        some { deck := deck, dealer_hand := dealer, players := players,
               phase := d.phase, current_player_turn := d.current_player_turn,
               round_active := d.round_active }

/-- The precondition failures enumerated by the spec: wrong phase, not the
seat's turn, insufficient balance, and disallowed actions (cannot split /
double down, already split, split ordering). Shoe exhaustion and lookup
errors are not precondition failures in this sense. -/
def ListedError : GameError → Prop := fun e =>
  e = .invalidPhase ∨ e = .notYourTurn ∨ e = .cannotStartRound ∨ e = .cannotSplitHand
  ∨ e = .insufficientBalance ∨ e = .alreadySplit ∨ e = .cannotDoubleDown
  ∨ e = .hasNotSplit ∨ e = .mustFinishFirstHand

/-! ### Reachability -/

/-- States reachable from a fresh game by the engine's action methods. A
fresh game starts from any shuffle (permutation) of the six-deck shoe;
`start_betting_phase` may likewise reshuffle to any permutation. A failed
action raises, and the caller (`game_service`) then discards the mutated
in-memory object without saving, so only successful action results are
persisted/reachable snapshots. -/
inductive Reachable : GameState → Prop where
  | init (d : List Card) (hd : List.Perm d sixDeckShoe) : Reachable (initGame d)
  | addPlayerStep (s : GameState) (n : Nat) (uid : String) (bal : Int) :
      Reachable s → Reachable (add_player s n uid bal).2
  | startBettingStep (s : GameState) (d : List Card) (hd : List.Perm d sixDeckShoe) :
      Reachable s → Reachable (start_betting_phase s d)
  | placeBetStep (s : GameState) (n : Nat) (amount : Int) :
      Reachable s → Reachable (place_bet s n amount).2
  | startPlayingStep (s : GameState) :
      Reachable s → (start_playing_phase s).1 = none →
      Reachable (start_playing_phase s).2
  | hitStep (s : GameState) (n : Nat) :
      Reachable s → (hit s n).1 = none → Reachable (hit s n).2
  | standStep (s : GameState) (n : Nat) :
      Reachable s → (stand s n).1 = none → Reachable (stand s n).2
  | doubleDownStep (s : GameState) (n : Nat) :
      Reachable s → (double_down s n).1 = none → Reachable (double_down s n).2
  | splitStep (s : GameState) (n : Nat) :
      Reachable s → (split s n).1 = none → Reachable (split s n).2
  | hitSplitStep (s : GameState) (n : Nat) :
      Reachable s → (hit_split s n).1 = none → Reachable (hit_split s n).2
  | standSplitStep (s : GameState) (n : Nat) :
      Reachable s → (stand_split s n).1 = none → Reachable (stand_split s n).2
  | dealerPlayStep (s : GameState) :
      Reachable s → (dealer_play s).1 = none → Reachable (dealer_play s).2

/-- The invariant exactly as the specification states it: `currentTurn` is
non-null iff the phase is `playing` and some seat still needs to act (in
the sense of the turn scan: `!has_acted && !busted && !stood`); at most one
seat has `playing_split_hand` at a time; and only a seat with `has_split`. -/
def ClaimedTurnInvariant (s : GameState) : Prop :=
  ((s.current_player_turn ≠ none) ↔
    (s.phase = "playing" ∧ ∃ kv ∈ s.players, pendingPrimary kv.2 = true))
  ∧ (s.players.filter (fun kv => kv.2.playing_split_hand)).length ≤ 1
  ∧ (∀ kv ∈ s.players, kv.2.playing_split_hand = true → kv.2.has_split = true)

/-- When `currentTurn` is non-null, the phase is `playing` and the named
seat exists and has not finished acting. -/
def TurnTargetsUnactedSeat (s : GameState) : Prop :=
  ∀ n, s.current_player_turn = some n →
    s.phase = "playing" ∧ ∃ p, getPlayer s n = some p ∧ p.has_acted = false

/-- A seat flagged as playing its split hand has split. -/
def SplitFlagInv (s : GameState) : Prop :=
  ∀ kv ∈ s.players, kv.2.playing_split_hand = true → kv.2.has_split = true

/-- A seat actively playing its split hand (flag set, not yet finished)
holds the turn. -/
def ActiveSplitIsTurn (s : GameState) : Prop :=
  ∀ kv ∈ s.players, kv.2.playing_split_hand = true → kv.2.has_acted = false →
    s.current_player_turn = some kv.1

/-- Seat numbers are unique. -/
def KeysNodup (s : GameState) : Prop := (s.players.map Prod.fst).Nodup

/-- The inductive invariant maintained by every action. -/
def Inv (s : GameState) : Prop :=
  TurnTargetsUnactedSeat s ∧ SplitFlagInv s ∧ ActiveSplitIsTurn s ∧ KeysNodup s

/-! ### Concrete states used by witnesses and counterexamples -/

/-- A fresh game joined by one player, used to instantiate theorems. -/
def demoState : GameState := (add_player (initGame sixDeckShoe) 1 "alice" 1000).2

/-- Removing the given cards from a base list, one occurrence each. -/
def consumeFrom (base : List Card) : List Card → List Card
  | [] => base
  | c :: cs => consumeFrom (base.erase c) cs

/-- Whether the cards can be drawn, in order, from the base list. -/
def availableIn : List Card → List Card → Bool
  | [], _ => true
  | c :: cs, base => base.contains c && availableIn cs (base.erase c)

/-- The opening cards of the double-split scenario: seats 1 and 2 each
receive a pair (eights and nines), the dealer 5+6, then the four cards the
two splits deal out. -/
def cex1Prefix : List Card :=
  [⟨.r8, .hearts⟩, ⟨.r9, .hearts⟩, ⟨.r5, .hearts⟩, ⟨.r8, .diamonds⟩,
   ⟨.r9, .diamonds⟩, ⟨.r6, .hearts⟩, ⟨.r2, .hearts⟩, ⟨.r3, .hearts⟩,
   ⟨.r2, .diamonds⟩, ⟨.r3, .diamonds⟩]

/-- A shuffle of the six-deck shoe opening with `cex1Prefix`. -/
def cex1_deck : List Card := cex1Prefix ++ consumeFrom sixDeckShoe cex1Prefix

/-- The double-split scenario, step by step: both seats bet 100, split
their pairs, and stand on both hands in turn. -/
def cex1S2 : GameState :=
  (add_player (add_player (initGame cex1_deck) 1 "u1" 1000).2 2 "u2" 1000).2

def cex1S3 : GameState := start_betting_phase cex1S2 sixDeckShoe

def cex1S5 : GameState := (place_bet (place_bet cex1S3 1 100).2 2 100).2

def cex1S6 : GameState := (start_playing_phase cex1S5).2

def cex1S7 : GameState := (split cex1S6 1).2

def cex1S8 : GameState := (stand cex1S7 1).2

def cex1S9 : GameState := (stand cex1S8 1).2

def cex1S10 : GameState := (split cex1S9 2).2

def cex1S11 : GameState := (stand cex1S10 2).2

/-- Opening cards of the stuck-turn scenario: the sole betting seat draws a
natural while the dealer shows 14. -/
def cex2Prefix : List Card :=
  [⟨.ace, .hearts⟩, ⟨.r5, .hearts⟩, ⟨.king, .hearts⟩, ⟨.r9, .hearts⟩]

/-- A shuffle of the six-deck shoe opening with `cex2Prefix`. -/
def cex2_deck : List Card := cex2Prefix ++ consumeFrom sixDeckShoe cex2Prefix

/-- The stuck-turn scenario: seat 1 is dealt a natural (turn stays null in
the playing phase), then a second player joins mid-round. -/
def cex2S4 : GameState :=
  (start_playing_phase
    (place_bet
      (start_betting_phase
        (add_player (initGame cex2_deck) 1 "u1" 1000).2 sixDeckShoe)
      1 100).2).2

def cex2S5 : GameState := (add_player cex2S4 2 "u2" 1000).2

/-- A default seat for hand-built scenario states. -/
def plainSeat (n : Nat) : PlayerState := initPlayer n "p" 1000

/-- Seats {1,2,3} in the playing phase with seat 2 busted: the turn-order
example of the specification. -/
def c4ExampleState : GameState :=
  { deck := [], dealer_hand := [], phase := "playing", current_player_turn := some 1,
    round_active := true,
    players := [(1, plainSeat 1), (2, { plainSeat 2 with busted := true }),
                (3, plainSeat 3)] }

/-- A seat holding a natural with an odd bet of 1, awaiting settlement. -/
def oddBetNatural : PlayerState :=
  { plainSeat 1 with
    balance := 0, hand := [⟨.ace, .hearts⟩, ⟨.king, .hearts⟩],
    current_bet := 1, has_bet := true, has_acted := true, stood := true }

/-- Settlement-ready snapshot: seat 1 holds a natural with bet 1, the dealer
shows 19 (so draws nothing), phase `dealer_turn`. -/
def c1CexState : GameState :=
  { deck := [], dealer_hand := [⟨.king, .diamonds⟩, ⟨.r9, .diamonds⟩],
    phase := "dealer_turn", current_player_turn := none, round_active := true,
    players := [(1, oddBetNatural)] }

/-- A seat holding a natural with bet 100, as in the spec's payout example. -/
def betHundredNatural : PlayerState :=
  { oddBetNatural with current_bet := 100 }

/-- Settlement-ready snapshot with bet 100: natural against a dealer 19. -/
def c1WitState : GameState :=
  { c1CexState with players := [(1, betHundredNatural)] }

/-- A seat that has split and now holds a 2-card 21 on its primary hand. -/
def c8WitSeat : PlayerState :=
  { plainSeat 1 with
    balance := 0, hand := [⟨.ace, .spades⟩, ⟨.king, .spades⟩],
    split_hand := some [⟨.ace, .clubs⟩, ⟨.r5, .clubs⟩],
    current_bet := 100, split_bet := 100, has_bet := true, has_split := true }

/-- The seat state `split` produces from seat `p` holding `[c0, c1]` when the
deck supplies `d0` (to the primary hand) and `d1` (to the split hand). -/
def splitOutcome (p : PlayerState) (c0 c1 d0 d1 : Card) : PlayerState :=
  let p₃ : PlayerState :=
    { p with
      hand := [c0, d0], split_hand := some [c1, d1],
      balance := p.balance - p.current_bet, split_bet := p.current_bet,
      has_split := true, can_split := false, can_double_down := true,
      playing_split_hand := false }
  if isBlackjack p₃.hand then { p₃ with stood := true } else p₃

/-- A seat holding a pair of eights with a 100 bet, allowed to split. -/
def pairSeat : PlayerState :=
  { plainSeat 1 with
    hand := [⟨.r8, .hearts⟩, ⟨.r8, .diamonds⟩], current_bet := 100, balance := 900,
    has_bet := true, can_split := true, can_double_down := true }

/-- A playing-phase snapshot where seat 1 may split its pair of eights. -/
def c7WitState : GameState :=
  { deck := [⟨.r2, .hearts⟩, ⟨.r3, .hearts⟩, ⟨.r4, .hearts⟩],
    dealer_hand := [⟨.r5, .hearts⟩, ⟨.r6, .hearts⟩], phase := "playing",
    current_player_turn := some 1, round_active := true,
    players := [(1, pairSeat)] }

/-- A snapshot whose seat 1 carries an empty split-hand list — the value on
which serialization is not injective. -/
def c10BadState : GameState :=
  { deck := [], dealer_hand := [], phase := "round_over",
    current_player_turn := none, round_active := false,
    players := [(1, { plainSeat 1 with split_hand := some [] })] }

/-- A snapshot with a genuine (non-empty) split hand, for the round-trip
witness. -/
def c10WitState : GameState :=
  { deck := [⟨.r2, .hearts⟩], dealer_hand := [⟨.r3, .hearts⟩],
    phase := "playing", current_player_turn := some 1, round_active := true,
    players := [(1, c8WitSeat)] }

/-- Two betting seats (bets 50 and 100) about to be dealt from a deck that
gives the dealer a natural. -/
def c3WitState : GameState :=
  { deck := [⟨.r10, .hearts⟩, ⟨.r9, .hearts⟩, ⟨.ace, .spades⟩,
             ⟨.r7, .hearts⟩, ⟨.r9, .diamonds⟩, ⟨.king, .spades⟩],
    dealer_hand := [], phase := "betting", current_player_turn := none,
    round_active := true,
    players :=
      [(1, { plainSeat 1 with current_bet := 50, balance := 950, has_bet := true }),
       (2, { initPlayer 2 "q" 1000 with
             current_bet := 100, balance := 900, has_bet := true })] }

/-! ### Hand-scoring lemmas -/

theorem hardTotal_go (cs : List Card) :
    ∀ v : Nat,
      cs.foldl (fun acc c => if c.rank = .ace then acc + 1 else acc + cardValue c) v =
        v + hardTotal cs := by
  induction cs with
  | nil => intro v; simp [hardTotal]
  | cons c cs ih =>
    intro v
    have hc : hardTotal (c :: cs) =
        (if c.rank = Rank.ace then (1 : Nat) else cardValue c) + hardTotal cs := by
      simp only [hardTotal, List.foldl_cons]
      rw [ih]
      by_cases h : c.rank = Rank.ace <;> simp [h, hardTotal]
    rw [List.foldl_cons, ih, hc]
    by_cases h : c.rank = Rank.ace <;> simp [h] <;> omega

theorem hardTotal_cons (c : Card) (cs : List Card) :
    hardTotal (c :: cs) =
      (if c.rank = .ace then 1 else cardValue c) + hardTotal cs := by
  simp only [hardTotal, List.foldl_cons]
  rw [hardTotal_go]
  by_cases h : c.rank = Rank.ace <;> simp [h, hardTotal]

theorem aceCount_cons (c : Card) (cs : List Card) :
    aceCount (c :: cs) = (if c.rank = .ace then 1 else 0) + aceCount cs := by
  simp only [aceCount, List.countP_cons]
  by_cases h : c.rank = Rank.ace <;> simp [h] <;> omega

theorem rawCount_go (cs : List Card) :
    ∀ v a : Nat,
      cs.foldl
        (fun acc c =>
          if c.rank = .ace then (acc.1 + 11, acc.2 + 1) else (acc.1 + cardValue c, acc.2))
        (v, a) =
      (v + hardTotal cs + 10 * aceCount cs, a + aceCount cs) := by
  induction cs with
  | nil => intro v a; simp [hardTotal, aceCount]
  | cons c cs ih =>
    intro v a
    simp only [List.foldl_cons]
    rw [hardTotal_cons, aceCount_cons]
    by_cases h : c.rank = Rank.ace <;> simp only [h, if_true, if_false, reduceIte] <;>
      rw [ih] <;> simp <;> omega

theorem rawCount_spec (cs : List Card) :
    rawCount cs = (hardTotal cs + 10 * aceCount cs, aceCount cs) := by
  simpa using rawCount_go cs 0 0

theorem aceCount_le_hardTotal (cs : List Card) : aceCount cs ≤ hardTotal cs := by
  induction cs with
  | nil => simp [aceCount, hardTotal]
  | cons c cs ih =>
    rw [hardTotal_cons, aceCount_cons]
    have hv : 1 ≤ cardValue c := by
      unfold cardValue; cases h : c.rank <;> simp
    by_cases h : c.rank = Rank.ace <;> simp [h] <;> omega

theorem adjustForAces_spec :
    ∀ (a h : Nat), a ≤ h →
      adjustForAces (h + 10 * a) a =
        if 0 < a ∧ h + 10 ≤ 21 then h + 10 else h := by
  intro a
  induction a with
  | zero => intro h _; simp [adjustForAces]
  | succ a ih =>
    intro h hle
    unfold adjustForAces
    by_cases hbig : 21 < h + 10 * (a + 1)
    · rw [if_pos hbig]
      have harith : h + 10 * (a + 1) - 10 = h + 10 * a := by omega
      rw [harith, ih h (by omega)]
      by_cases ha : 0 < a
      · by_cases hfit : h + 10 ≤ 21 <;> simp [ha, hfit]
      · have ha0 : a = 0 := by omega
        subst ha0
        have : ¬(h + 10 ≤ 21) := by omega
        simp [this]
    · rw [if_neg hbig]
      have ha0 : a = 0 := by omega
      subst ha0
      have : h + 10 ≤ 21 := by omega
      simp [this]

theorem calculateValue_closed_form (cards : List Card) :
    calculateValue cards =
      if 0 < aceCount cards ∧ hardTotal cards + 10 ≤ 21
      then hardTotal cards + 10 else hardTotal cards := by
  unfold calculateValue
  rw [rawCount_spec]
  simpa using adjustForAces_spec (aceCount cards) (hardTotal cards)
    (aceCount_le_hardTotal cards)

/-- **C2.** `calculate_value` counts each ace as 11 and then hardens aces
(subtracting 10 each) while the total exceeds 21: equivalently, the value is
the hard total (aces as 1) plus 10 exactly when the hand holds an ace and
that soft value still fits under 21. In particular `[A,6] = 17`,
`[A,6,K] = 17` (not bust), `[A,A] = 12`, `[K,Q,A] = 21`. -/
theorem c2_calculate_value :
    (∀ cards : List Card,
      calculateValue cards =
        if 0 < aceCount cards ∧ hardTotal cards + 10 ≤ 21
        then hardTotal cards + 10 else hardTotal cards)
    ∧ calculateValue [⟨.ace, .hearts⟩, ⟨.r6, .hearts⟩] = 17
    ∧ calculateValue [⟨.ace, .hearts⟩, ⟨.r6, .hearts⟩, ⟨.king, .hearts⟩] = 17
    ∧ isBust [⟨.ace, .hearts⟩, ⟨.r6, .hearts⟩, ⟨.king, .hearts⟩] = false
    ∧ calculateValue [⟨.ace, .hearts⟩, ⟨.ace, .spades⟩] = 12
    ∧ calculateValue [⟨.king, .hearts⟩, ⟨.queen, .hearts⟩, ⟨.ace, .hearts⟩] = 21 :=
  ⟨calculateValue_closed_form, by decide, by decide, by decide, by decide, by decide⟩

/-! ### Player-map lemmas -/

theorem lookupSeat_updateSeat_self (l : List (Nat × PlayerState)) (n : Nat)
    (p : PlayerState) :
    lookupSeat (updateSeat l n p) n = (lookupSeat l n).map (fun _ => p) := by
  induction l with
  | nil => simp [lookupSeat, updateSeat]
  | cons kv l ih =>
    by_cases h : kv.1 = n
    · simp [lookupSeat, updateSeat, h]
    · simp [lookupSeat, updateSeat, h, ih]

theorem lookupSeat_updateSeat_other (l : List (Nat × PlayerState)) (n m : Nat)
    (p : PlayerState) (hnm : m ≠ n) :
    lookupSeat (updateSeat l n p) m = lookupSeat l m := by
  induction l with
  | nil => simp [updateSeat]
  | cons kv l ih =>
    by_cases hn : kv.1 = n
    · have hm : ¬(n = m) := fun e => hnm e.symm
      simp [lookupSeat, updateSeat, hn, hm, ih]
    · by_cases hm : kv.1 = m
      · simp [lookupSeat, updateSeat, hn, hm, hnm]
      · simp [lookupSeat, updateSeat, hn, hm, ih]

theorem getPlayer_setPlayer_self (s : GameState) (n : Nat) (p q : PlayerState)
    (h : getPlayer s n = some q) :
    getPlayer (setPlayer s n p) n = some p := by
  unfold getPlayer setPlayer at *
  rw [lookupSeat_updateSeat_self, h]
  rfl

theorem getPlayer_setPlayer_other (s : GameState) (n m : Nat) (p : PlayerState)
    (hnm : m ≠ n) :
    getPlayer (setPlayer s n p) m = getPlayer s m := by
  unfold getPlayer setPlayer
  exact lookupSeat_updateSeat_other _ _ _ _ hnm

theorem keys_updateSeat (l : List (Nat × PlayerState)) (n : Nat) (p : PlayerState) :
    (updateSeat l n p).map Prod.fst = l.map Prod.fst := by
  induction l with
  | nil => simp [updateSeat]
  | cons kv l ih =>
    by_cases h : kv.1 = n
    · simp [updateSeat, h, ih]
    · simp [updateSeat, h, ih]

theorem keys_setPlayer (s : GameState) (n : Nat) (p : PlayerState) :
    (setPlayer s n p).players.map Prod.fst = s.players.map Prod.fst := by
  unfold setPlayer
  exact keys_updateSeat _ _ _

/-- **C6.** `place_bet(seat, amount)` succeeds exactly when the seat exists
and `0 < amount ≤ balance`; on success the balance is debited by exactly the
amount, `current_bet := amount` and `has_bet := true`, with every other seat
untouched; on failure the state is completely unchanged. Quantified over all
states, this covers every sequence of `place_bet` calls. -/
theorem c6_place_bet (s : GameState) (n : Nat) (amount : Int) :
    ((place_bet s n amount).1 = true ↔
      ∃ p, getPlayer s n = some p ∧ 0 < amount ∧ amount ≤ p.balance)
    ∧ (∀ p, getPlayer s n = some p → (place_bet s n amount).1 = true →
        (getPlayer (place_bet s n amount).2 n =
          some { p with
                 current_bet := amount, balance := p.balance - amount, has_bet := true })
        ∧ (∀ m, m ≠ n → getPlayer (place_bet s n amount).2 m = getPlayer s m)
        ∧ (place_bet s n amount).2.deck = s.deck
        ∧ (place_bet s n amount).2.phase = s.phase
        ∧ (place_bet s n amount).2.current_player_turn = s.current_player_turn
        ∧ (place_bet s n amount).2.dealer_hand = s.dealer_hand
        ∧ (place_bet s n amount).2.round_active = s.round_active)
    ∧ ((place_bet s n amount).1 = false → (place_bet s n amount).2 = s) := by
  unfold place_bet
  cases hgp : getPlayer s n with
  | none =>
    refine ⟨?_, ?_, ?_⟩
    · simp
    · intro p hp; simp at hp
    · intro; rfl
  | some p =>
    dsimp only
    by_cases hrej : amount ≤ 0 ∨ p.balance < amount
    · have hb : (decide (amount ≤ 0) || decide (p.balance < amount)) = true := by
        rcases hrej with h | h <;> simp [h]
      rw [hb, if_pos rfl]
      refine ⟨?_, ?_, ?_⟩
      · constructor
        · intro h; exact absurd h (by simp)
        · rintro ⟨q, hq, hpos, hle⟩
          injection hq with hq
          subst hq
          omega
      · intro q hq hsucc
        simp at hsucc
      · intro; rfl
    · push_neg at hrej
      have hb : (decide (amount ≤ 0) || decide (p.balance < amount)) = false := by
        simp; omega
      rw [hb, if_neg Bool.false_ne_true]
      refine ⟨?_, ?_, ?_⟩
      · constructor
        · intro _; exact ⟨p, rfl, by omega, by omega⟩
        · intro _; rfl
      · intro q hq _
        injection hq with hq
        subst hq
        refine ⟨getPlayer_setPlayer_self s n _ p hgp, ?_, rfl, rfl, rfl, rfl, rfl⟩
        intro m hm
        exact getPlayer_setPlayer_other s n m _ hm
      · intro h; simp at h

/-- Witness for C6 at a concrete state: player 1 with balance 1000 bets 100
and ends with balance 900 and the bet recorded. -/
theorem c6_witness :
    getPlayer (place_bet demoState 1 100).2 1 =
      some { initPlayer 1 "alice" 1000 with
             current_bet := 100, balance := (initPlayer 1 "alice" 1000).balance - 100,
             has_bet := true } :=
  ((c6_place_bet demoState 1 100).2.1 (initPlayer 1 "alice" 1000)
    (by decide) (by decide)).1

/-! ### Turn-order lemmas -/

theorem find?_least_forward (P : Nat → Bool) :
    ∀ (l : List Nat), l.Sorted (· ≤ ·) → ∀ k, l.find? P = some k →
      P k = true ∧ k ∈ l ∧ ∀ m ∈ l, P m = true → k ≤ m := by
  intro l
  induction l with
  | nil => intro _ k h; simp at h
  | cons b l ih =>
    intro hs k hf
    rw [List.sorted_cons] at hs
    obtain ⟨hble, hsl⟩ := hs
    cases hPb : P b with
    | true =>
      rw [List.find?_cons_of_pos _ hPb] at hf
      injection hf with hf
      subst hf
      refine ⟨hPb, List.mem_cons_self _ _, ?_⟩
      intro m hm _
      rcases List.mem_cons.mp hm with h | h
      · omega
      · exact hble m h
    | false =>
      rw [List.find?_cons_of_neg _ (by simp [hPb])] at hf
      obtain ⟨h1, h2, h3⟩ := ih hsl k hf
      refine ⟨h1, List.mem_cons_of_mem _ h2, ?_⟩
      intro m hm hPm
      rcases List.mem_cons.mp hm with h | h
      · subst h; rw [hPb] at hPm; exact absurd hPm (by simp)
      · exact h3 m h hPm

theorem find?_least_iff (l : List Nat) (hs : l.Sorted (· ≤ ·)) (P : Nat → Bool)
    (k : Nat) :
    l.find? P = some k ↔
      (P k = true ∧ k ∈ l ∧ ∀ m ∈ l, P m = true → k ≤ m) := by
  constructor
  · exact find?_least_forward P l hs k
  · rintro ⟨hPk, hkm, hmin⟩
    cases hf : l.find? P with
    | none =>
      rw [List.find?_eq_none] at hf
      exact absurd hPk (hf k hkm)
    | some q =>
      obtain ⟨hPq, hqm, hmin'⟩ := find?_least_forward P l hs q hf
      have h1 := hmin q hqm hPq
      have h2 := hmin' k hkm hPk
      have hkq : k = q := le_antisymm h1 h2
      rw [hkq]

theorem drop_index_sorted :
    ∀ (l : List Nat), l.Sorted (· ≤ ·) → l.Nodup → ∀ a ∈ l,
      ∃ i, indexOfSeat l a = some i ∧
        l.drop (i + 1) = l.filter (fun k => decide (a < k)) := by
  intro l
  induction l with
  | nil => intro _ _ a ha; simp at ha
  | cons b l ih =>
    intro hs hnd a ha
    rw [List.sorted_cons] at hs
    obtain ⟨hble, hsl⟩ := hs
    rw [List.nodup_cons] at hnd
    obtain ⟨hbnot, hndl⟩ := hnd
    by_cases hba : b = a
    · subst hba
      refine ⟨0, by simp [indexOfSeat], ?_⟩
      have hall : ∀ k ∈ l, decide (b < k) = true := by
        intro k hk
        have h1 := hble k hk
        have h2 : k ≠ b := fun e => hbnot (e ▸ hk)
        simp
        omega
      simp [List.filter_cons, List.filter_eq_self.mpr hall]
    · have ha' : a ∈ l := by
        rcases List.mem_cons.mp ha with h | h
        · exact absurd h.symm hba
        · exact h
      obtain ⟨i, hidx, hdrop⟩ := ih hsl hndl a ha'
      refine ⟨i + 1, ?_, ?_⟩
      · simp [indexOfSeat, hba, hidx]
      · have hbla : b ≤ a := hble a ha'
        have hnab : ¬(a < b) := by omega
        simp [List.drop_succ_cons, hdrop, List.filter_cons, hnab]

theorem sortedSeatNumbers_perm (s : GameState) :
    List.Perm (sortedSeatNumbers s) (s.players.map Prod.fst) :=
  List.perm_insertionSort _ _

theorem sortedSeatNumbers_sorted (s : GameState) :
    (sortedSeatNumbers s).Sorted (· ≤ ·) :=
  List.sorted_insertionSort _ _

/-- **C4.** `_get_next_player_turn` scans the seats in ascending seat-number
order starting just after the given seat (from the first seat when given
null) and returns the first seat with `not has_acted`, `not busted`,
`not stood`, or null when no such seat exists; on a sorted duplicate-free
seat set this means: the least pending seat (after the given one). The
spec's example — seats {1,2,3}, seat 2 busted, next after 1 — yields 3. -/
theorem c4_next_player_turn (s : GameState)
    (hnd : (s.players.map Prod.fst).Nodup) :
    (∀ k, get_next_player_turn s none = some k ↔
        (seatPending s k = true ∧ k ∈ s.players.map Prod.fst ∧
         ∀ m ∈ s.players.map Prod.fst, seatPending s m = true → k ≤ m))
    ∧ (∀ a, a ∈ s.players.map Prod.fst → ∀ k,
        (get_next_player_turn s (some a) = some k ↔
          (seatPending s k = true ∧ k ∈ s.players.map Prod.fst ∧ a < k ∧
           ∀ m ∈ s.players.map Prod.fst, seatPending s m = true → a < m → k ≤ m)))
    ∧ (get_next_player_turn s none = none ↔
        ∀ m ∈ s.players.map Prod.fst, seatPending s m = false)
    ∧ (∀ a, a ∈ s.players.map Prod.fst →
        (get_next_player_turn s (some a) = none ↔
          ∀ m ∈ s.players.map Prod.fst, seatPending s m = true → m ≤ a))
    ∧ get_next_player_turn c4ExampleState (some 1) = some 3 := by
  have hperm := sortedSeatNumbers_perm s
  have hsor := sortedSeatNumbers_sorted s
  have hndn : (sortedSeatNumbers s).Nodup := hperm.nodup_iff.mpr hnd
  have hmem : ∀ x, x ∈ sortedSeatNumbers s ↔ x ∈ s.players.map Prod.fst :=
    fun x => hperm.mem_iff
  refine ⟨?_, ?_, ?_, ?_, by decide⟩
  · intro k
    show (((sortedSeatNumbers s).drop 0).find? (fun k => seatPending s k) = some k) ↔ _
    rw [List.drop_zero,
      find?_least_iff (sortedSeatNumbers s) hsor (fun k => seatPending s k) k]
    constructor
    · rintro ⟨h1, h2, h3⟩
      exact ⟨h1, (hmem k).mp h2, fun m hm hPm => h3 m ((hmem m).mpr hm) hPm⟩
    · rintro ⟨h1, h2, h3⟩
      exact ⟨h1, (hmem k).mpr h2, fun m hm hPm => h3 m ((hmem m).mp hm) hPm⟩
  · intro a ha k
    obtain ⟨i, hidx, hdrop⟩ :=
      drop_index_sorted (sortedSeatNumbers s) hsor hndn a ((hmem a).mpr ha)
    have hunfold : get_next_player_turn s (some a) =
        ((sortedSeatNumbers s).drop (i + 1)).find? (fun k => seatPending s k) := by
      simp only [get_next_player_turn, hidx]
    rw [hunfold, hdrop,
      find?_least_iff _ (hsor.filter _) (fun k => seatPending s k) k]
    constructor
    · rintro ⟨h1, h2, h3⟩
      rw [List.mem_filter] at h2
      obtain ⟨h2m, h2lt⟩ := h2
      refine ⟨h1, (hmem k).mp h2m, by simpa using h2lt, ?_⟩
      intro m hm hPm ham
      exact h3 m (List.mem_filter.mpr ⟨(hmem m).mpr hm, by simpa using ham⟩) hPm
    · rintro ⟨h1, h2, h3, h4⟩
      refine ⟨h1, List.mem_filter.mpr ⟨(hmem k).mpr h2, by simpa using h3⟩, ?_⟩
      intro m hm hPm
      rw [List.mem_filter] at hm
      exact h4 m ((hmem m).mp hm.1) hPm (by simpa using hm.2)
  · show (((sortedSeatNumbers s).drop 0).find? (fun k => seatPending s k) = none) ↔ _
    rw [List.drop_zero, List.find?_eq_none]
    constructor
    · intro h m hm
      have := h m ((hmem m).mpr hm)
      simpa using this
    · intro h m hm
      simp [h m ((hmem m).mp hm)]
  · intro a ha
    obtain ⟨i, hidx, hdrop⟩ :=
      drop_index_sorted (sortedSeatNumbers s) hsor hndn a ((hmem a).mpr ha)
    have hunfold : get_next_player_turn s (some a) =
        ((sortedSeatNumbers s).drop (i + 1)).find? (fun k => seatPending s k) := by
      simp only [get_next_player_turn, hidx]
    rw [hunfold, hdrop, List.find?_eq_none]
    constructor
    · intro h m hm hPm
      by_contra hlt
      push_neg at hlt
      exact (h m (List.mem_filter.mpr ⟨(hmem m).mpr hm, by simpa using hlt⟩)) hPm
    · intro h m hm
      rw [List.mem_filter] at hm
      intro hPm
      have h1 := h m ((hmem m).mp hm.1) hPm
      have h2 : a < m := by simpa using hm.2
      omega

/-- Witness for C4: in the spec's three-seat example (seat 2 busted), the
turn-order characterization applied at seat 1 returns seat 3. -/
theorem c4_witness : get_next_player_turn c4ExampleState (some 1) = some 3 :=
  ((c4_next_player_turn c4ExampleState (by decide)).2.1 1 (by decide) 3).mpr
    ⟨by decide, by decide, by decide, by decide⟩

/-! ### Settlement lemmas -/

theorem lookupSeat_map (f : PlayerState → PlayerState) :
    ∀ (l : List (Nat × PlayerState)) (n : Nat),
      lookupSeat (l.map (fun kv => (kv.1, f kv.2))) n = (lookupSeat l n).map f := by
  intro l
  induction l with
  | nil => intro n; simp [lookupSeat]
  | cons kv l ih =>
    intro n
    by_cases h : kv.1 = n
    · simp [lookupSeat, h]
    · simp [lookupSeat, h, ih]

/-- What `dealer_play` does on a `dealer_turn` snapshot when the shoe does
not run out: the dealer hand is drawn to 17+, and every seat is settled by
the primary-hand comparison followed by the split-hand comparison. -/
theorem dealer_play_settles (s : GameState)
    (hphase : s.phase = "dealer_turn")
    (hdraw : (dealerDraw s.dealer_hand s.deck).1 = none) :
    (dealer_play s).1 = none
    ∧ (dealer_play s).2.phase = "round_over"
    ∧ (dealer_play s).2.round_active = false
    ∧ (dealer_play s).2.current_player_turn = s.current_player_turn
    ∧ (dealer_play s).2.dealer_hand = (dealerDraw s.dealer_hand s.deck).2.1
    ∧ ∀ n, getPlayer (dealer_play s).2 n =
        (getPlayer s n).map (fun p =>
          settleSplit (calculateValue (dealerDraw s.dealer_hand s.deck).2.1)
            (isBust (dealerDraw s.dealer_hand s.deck).2.1)
            (isBlackjack (dealerDraw s.dealer_hand s.deck).2.1)
            (settlePrimary (calculateValue (dealerDraw s.dealer_hand s.deck).2.1)
              (isBust (dealerDraw s.dealer_hand s.deck).2.1)
              (isBlackjack (dealerDraw s.dealer_hand s.deck).2.1) p)) := by
  unfold dealer_play
  rw [hphase]
  rw [if_neg (by decide)]
  rcases hD : dealerDraw s.dealer_hand s.deck with ⟨e, dealer, deck⟩
  rw [hD] at hdraw
  simp only at hdraw
  subst hdraw
  refine ⟨rfl, rfl, rfl, rfl, rfl, ?_⟩
  intro n
  dsimp only [getPlayer]
  exact lookupSeat_map
    (fun q =>
      settleSplit (calculateValue dealer) (isBust dealer) (isBlackjack dealer)
        (settlePrimary (calculateValue dealer) (isBust dealer) (isBlackjack dealer) q))
    s.players n

/-- **C1 counterexample.** With an odd bet of 1 a natural is credited
`int(1 * 2.5) = 2`, not `1 × 2.5`: twice the credit is 4, not `5 × bet`.
So the payout is not literally `bet × 2.5` for every bet. -/
theorem c1_counterexample :
    (dealer_play c1CexState).1 = none
    ∧ isBlackjack oddBetNatural.hand = true
    ∧ oddBetNatural.has_split = false
    ∧ oddBetNatural.result = none
    ∧ oddBetNatural.current_bet = 1
    ∧ getPlayer c1CexState 1 = some oddBetNatural
    ∧ isBlackjack (dealer_play c1CexState).2.dealer_hand = false
    ∧ (getPlayer (dealer_play c1CexState).2 1).map (fun p => (p.result, p.balance)) =
        some (some "blackjack", oddBetNatural.balance + 2)
    ∧ 2 * ((2 : Int) - 0) ≠ 5 * oddBetNatural.current_bet := by
  decide

/-- **C1 (amended).** `dealer_play` settles every not-yet-resolved seat by
the payout table: natural vs dealer natural → push, refund the bet; natural
only → result `blackjack`, credit `⌊bet × 2.5⌋` (`int(bet * 2.5)`; equal to
`bet × 2.5` for even bets, 250 for bet 100); dealer natural only → lose,
no credit; dealer bust → win, credit `2 × bet`; otherwise the higher value
wins `2 × bet`, equal values push and refund the bet, and a lower value
loses with credit 0. The split hand settles by the same comparison with no
natural branch. -/
theorem c1_dealer_play_settlement :
    (∀ (s : GameState), s.phase = "dealer_turn" →
      (dealerDraw s.dealer_hand s.deck).1 = none →
      (dealer_play s).1 = none ∧
      ∀ n, getPlayer (dealer_play s).2 n =
        (getPlayer s n).map (fun p =>
          settleSplit (calculateValue (dealerDraw s.dealer_hand s.deck).2.1)
            (isBust (dealerDraw s.dealer_hand s.deck).2.1)
            (isBlackjack (dealerDraw s.dealer_hand s.deck).2.1)
            (settlePrimary (calculateValue (dealerDraw s.dealer_hand s.deck).2.1)
              (isBust (dealerDraw s.dealer_hand s.deck).2.1)
              (isBlackjack (dealerDraw s.dealer_hand s.deck).2.1) p)))
    ∧ (∀ (dv : Nat) (db dbj : Bool) (p : PlayerState), p.result = none →
        ((isBlackjack p.hand && !p.has_split) = true → dbj = true →
          settlePrimary dv db dbj p =
            { p with result := some "push", balance := p.balance + p.current_bet })
        ∧ ((isBlackjack p.hand && !p.has_split) = true → dbj = false →
          settlePrimary dv db dbj p =
            { p with
              result := some "blackjack",
              balance := p.balance + blackjackPayout p.current_bet })
        ∧ ((isBlackjack p.hand && !p.has_split) = false → dbj = true →
          settlePrimary dv db dbj p = { p with result := some "lose" })
        ∧ ((isBlackjack p.hand && !p.has_split) = false → dbj = false → db = true →
          settlePrimary dv db dbj p =
            { p with result := some "win", balance := p.balance + p.current_bet * 2 })
        ∧ ((isBlackjack p.hand && !p.has_split) = false → dbj = false → db = false →
            calculateValue p.hand < dv →
          settlePrimary dv db dbj p = { p with result := some "lose" })
        ∧ ((isBlackjack p.hand && !p.has_split) = false → dbj = false → db = false →
            dv < calculateValue p.hand →
          settlePrimary dv db dbj p =
            { p with result := some "win", balance := p.balance + p.current_bet * 2 })
        ∧ ((isBlackjack p.hand && !p.has_split) = false → dbj = false → db = false →
            calculateValue p.hand = dv →
          settlePrimary dv db dbj p =
            { p with result := some "push", balance := p.balance + p.current_bet }))
    ∧ (∀ (dv : Nat) (db dbj : Bool) (p : PlayerState),
        p.has_split = true → p.split_result = none →
        (dbj = true → settleSplit dv db dbj p = { p with split_result := some "lose" })
        ∧ (dbj = false → db = true →
          settleSplit dv db dbj p =
            { p with
              split_result := some "win", balance := p.balance + p.split_bet * 2 })
        ∧ (dbj = false → db = false → calculateValue (p.split_hand.getD []) < dv →
          settleSplit dv db dbj p = { p with split_result := some "lose" })
        ∧ (dbj = false → db = false → dv < calculateValue (p.split_hand.getD []) →
          settleSplit dv db dbj p =
            { p with
              split_result := some "win", balance := p.balance + p.split_bet * 2 })
        ∧ (dbj = false → db = false → calculateValue (p.split_hand.getD []) = dv →
          settleSplit dv db dbj p =
            { p with
              split_result := some "push", balance := p.balance + p.split_bet }))
    ∧ (∀ (dv : Nat) (db dbj : Bool) (p : PlayerState), p.has_split = false →
        settleSplit dv db dbj p = p) := by
  refine ⟨?_, ?_, ?_, ?_⟩
  · intro s h1 h2
    obtain ⟨ha, _, _, _, _, hb⟩ := dealer_play_settles s h1 h2
    exact ⟨ha, hb⟩
  · intro dv db dbj p hres
    unfold settlePrimary
    rw [hres]
    refine ⟨?_, ?_, ?_, ?_, ?_, ?_, ?_⟩
    · intro h1 h2; simp [h1, h2]
    · intro h1 h2; simp [h1, h2]
    · intro h1 h2; simp [h1, h2]
    · intro h1 h2 h3; simp [h1, h2, h3]
    · intro h1 h2 h3 h4; simp [h1, h2, h3, h4, Nat.not_lt.mpr (Nat.le_of_lt h4)]
    · intro h1 h2 h3 h4
      simp [h1, h2, h3, h4, Nat.not_lt.mpr (Nat.le_of_lt h4)]
    · intro h1 h2 h3 h4
      simp [h1, h2, h3, h4]
  · intro dv db dbj p hsp hres
    unfold settleSplit
    rw [hsp, hres]
    refine ⟨?_, ?_, ?_, ?_, ?_⟩
    · intro h1; simp [h1]
    · intro h1 h2; simp [h1, h2]
    · intro h1 h2 h3; simp [h1, h2, h3]
    · intro h1 h2 h3; simp [h1, h2, h3, Nat.not_lt.mpr (Nat.le_of_lt h3)]
    · intro h1 h2 h3; simp [h1, h2, h3]
  · intro dv db dbj p hsp
    unfold settleSplit
    rw [hsp]
    simp

/-- Witness for C1: the spec's own example — bet 100, natural against a
non-natural dealer 19 — is credited exactly 250. -/
theorem c1_settlement_witness :
    (getPlayer (dealer_play c1WitState).2 1).map (fun p => (p.result, p.balance)) =
      some (some "blackjack", 250) := by
  have h :=
    (c1_dealer_play_settlement.1 c1WitState (by decide) (by decide)).2 1
  rw [h]
  decide

/-- A split seat's primary hand always settles as plain lose, win, or push:
the natural branches are unreachable because `player_blackjack` conjoins
`not has_split`. -/
theorem settlePrimary_no_natural (dv : Nat) (db dbj : Bool) (p : PlayerState)
    (hres : p.result = none)
    (hnat : (isBlackjack p.hand && !p.has_split) = false) :
    settlePrimary dv db dbj p = { p with result := some "lose" }
    ∨ settlePrimary dv db dbj p =
        { p with result := some "win", balance := p.balance + p.current_bet * 2 }
    ∨ settlePrimary dv db dbj p =
        { p with result := some "push", balance := p.balance + p.current_bet } := by
  unfold settlePrimary
  rw [hres]
  simp only [hnat, Bool.false_and]
  cases dbj with
  | true => left; simp
  | false =>
    cases db with
    | true => right; left; simp
    | false =>
      by_cases hlt : calculateValue p.hand < dv
      · left; simp [hlt]
      · by_cases hgt : dv < calculateValue p.hand
        · right; left; simp [hlt, hgt]
        · right; right; simp [hlt, hgt]

/-- The split hand settles as plain lose, win, or push; there is no natural
branch at all. -/
theorem settleSplit_cases (dv : Nat) (db dbj : Bool) (p : PlayerState)
    (hsp : p.has_split = true) (hres : p.split_result = none) :
    settleSplit dv db dbj p = { p with split_result := some "lose" }
    ∨ settleSplit dv db dbj p =
        { p with split_result := some "win", balance := p.balance + p.split_bet * 2 }
    ∨ settleSplit dv db dbj p =
        { p with split_result := some "push", balance := p.balance + p.split_bet } := by
  unfold settleSplit
  rw [hsp, hres]
  simp only [Option.isNone_none, Bool.and_true, if_true]
  cases dbj with
  | true => left; simp
  | false =>
    cases db with
    | true => right; left; simp
    | false =>
      by_cases hlt : calculateValue (p.split_hand.getD []) < dv
      · left; simp [hlt]
      · by_cases hgt : dv < calculateValue (p.split_hand.getD [])
        · right; left; simp [hlt, hgt]
        · right; right; simp [hlt, hgt]

/-- **C8.** A natural is exactly a 2-card hand of value 21, and only counts
when the seat has not split: in settlement a split seat is never given the
result `blackjack` on either hand — each hand settles as lose, win, or
push with credit 0, the bet, or twice the bet (never the 2.5× natural
payout), even if a 2-card hand of the seat has value 21. -/
theorem c8_split_never_natural :
    (∀ cards : List Card,
      isBlackjack cards = true ↔ (cards.length = 2 ∧ calculateValue cards = 21))
    ∧ (∀ (dv : Nat) (db dbj : Bool) (p : PlayerState),
        p.has_split = true → p.result = none →
        (settlePrimary dv db dbj p).result ≠ some "blackjack"
        ∧ ((settlePrimary dv db dbj p).balance = p.balance
           ∨ (settlePrimary dv db dbj p).balance = p.balance + p.current_bet
           ∨ (settlePrimary dv db dbj p).balance = p.balance + p.current_bet * 2))
    ∧ (∀ (dv : Nat) (db dbj : Bool) (p : PlayerState),
        p.has_split = true → p.split_result = none →
        (settleSplit dv db dbj p).split_result ≠ some "blackjack"
        ∧ ((settleSplit dv db dbj p).balance = p.balance
           ∨ (settleSplit dv db dbj p).balance = p.balance + p.split_bet
           ∨ (settleSplit dv db dbj p).balance = p.balance + p.split_bet * 2))
    ∧ (∀ (s : GameState) (n : Nat) (p : PlayerState),
        s.phase = "dealer_turn" → (dealerDraw s.dealer_hand s.deck).1 = none →
        getPlayer s n = some p → p.has_split = true → p.result = none →
        p.split_result = none →
        ∃ p', getPlayer (dealer_play s).2 n = some p'
          ∧ p'.result ≠ some "blackjack" ∧ p'.split_result ≠ some "blackjack") := by
  refine ⟨?_, ?_, ?_, ?_⟩
  · intro cards
    simp [isBlackjack]
  · intro dv db dbj p hsp hres
    have hnat : (isBlackjack p.hand && !p.has_split) = false := by
      rw [hsp]; simp
    rcases settlePrimary_no_natural dv db dbj p hres hnat with h | h | h <;>
      rw [h] <;> exact ⟨by simp, by simp⟩
  · intro dv db dbj p hsp hres
    rcases settleSplit_cases dv db dbj p hsp hres with h | h | h <;>
      rw [h] <;> exact ⟨by simp, by simp⟩
  · intro s n p hphase hdrawOk hp hsp hres hsres
    obtain ⟨-, -, -, -, -, hmap⟩ := dealer_play_settles s hphase hdrawOk
    have hgp := hmap n
    rw [hp] at hgp
    simp only [Option.map_some'] at hgp
    refine ⟨_, hgp, ?_, ?_⟩
    · have hnat : (isBlackjack p.hand && !p.has_split) = false := by
        rw [hsp]; simp
      rcases settlePrimary_no_natural (calculateValue (dealerDraw s.dealer_hand s.deck).2.1)
          (isBust (dealerDraw s.dealer_hand s.deck).2.1)
          (isBlackjack (dealerDraw s.dealer_hand s.deck).2.1) p hres hnat with h1 | h1 | h1 <;>
        rcases settleSplit_cases (calculateValue (dealerDraw s.dealer_hand s.deck).2.1)
            (isBust (dealerDraw s.dealer_hand s.deck).2.1)
            (isBlackjack (dealerDraw s.dealer_hand s.deck).2.1)
            (settlePrimary (calculateValue (dealerDraw s.dealer_hand s.deck).2.1)
              (isBust (dealerDraw s.dealer_hand s.deck).2.1)
              (isBlackjack (dealerDraw s.dealer_hand s.deck).2.1) p)
            (by simp [h1, hsp]) (by simp [h1, hsres]) with h2 | h2 | h2 <;>
        rw [h2] <;> simp [h1]
    · have hnat : (isBlackjack p.hand && !p.has_split) = false := by
        rw [hsp]; simp
      rcases settlePrimary_no_natural (calculateValue (dealerDraw s.dealer_hand s.deck).2.1)
          (isBust (dealerDraw s.dealer_hand s.deck).2.1)
          (isBlackjack (dealerDraw s.dealer_hand s.deck).2.1) p hres hnat with h1 | h1 | h1 <;>
        rcases settleSplit_cases (calculateValue (dealerDraw s.dealer_hand s.deck).2.1)
            (isBust (dealerDraw s.dealer_hand s.deck).2.1)
            (isBlackjack (dealerDraw s.dealer_hand s.deck).2.1)
            (settlePrimary (calculateValue (dealerDraw s.dealer_hand s.deck).2.1)
              (isBust (dealerDraw s.dealer_hand s.deck).2.1)
              (isBlackjack (dealerDraw s.dealer_hand s.deck).2.1) p)
            (by simp [h1, hsp]) (by simp [h1, hsres]) with h2 | h2 | h2 <;>
        rw [h2] <;> simp [h1]


/-! ### Split lemmas -/

theorem split_eval (s : GameState) (n : Nat) (p : PlayerState) (c0 c1 d0 d1 : Card)
    (rest : List Card)
    (hphase : s.phase = "playing")
    (hturn : s.current_player_turn = some n)
    (hgp : getPlayer s n = some p)
    (hhand : p.hand = [c0, c1])
    (hdeck : s.deck = d0 :: d1 :: rest)
    (hcs : p.can_split = true)
    (hle : p.current_bet ≤ p.balance)
    (hhs : p.has_split = false) :
    split s n =
      (none,
        { s with
          deck := rest,
          players :=
            updateSeat
              (updateSeat
                (updateSeat s.players n
                  { p with
                    hand := [c0], split_hand := some [c1],
                    balance := p.balance - p.current_bet, split_bet := p.current_bet })
                n
                { p with
                  hand := [c0, d0], split_hand := some [c1],
                  balance := p.balance - p.current_bet, split_bet := p.current_bet })
              n (splitOutcome p c0 c1 d0 d1) }) := by
  unfold split
  rw [hphase, if_neg (by decide), hturn, if_neg (by simp), hgp]
  dsimp only
  rw [hcs]
  simp only [Bool.not_true, Bool.false_eq_true, if_false]
  rw [if_neg (by omega)]
  rw [hhs]
  simp only [Bool.false_eq_true, if_false]
  rw [hhand]
  dsimp only [setPlayer]
  rw [hdeck]
  dsimp only [dealOne, splitOutcome]
  simp
  exact ⟨hphase, hturn⟩

/-- **C7.** `split`, called in phase `playing` on the seat holding the turn
with a two-card hand and two cards left in the shoe, fails with a typed
error unless `can_split`, `bet ≤ balance` and `not has_split`; on success it
moves the second card into a new split hand, debits a second bet equal to
`current_bet` (recorded as `split_bet`), deals one fresh card to each hand,
sets `has_split`, `can_double_down`, clears `can_split` and
`playing_split_hand`, marks the primary hand stood when it reaches 21 (a 21
that is not a natural, as the seat now has `has_split`), and leaves
`currentTurn` on this seat. -/
theorem c7_split (s : GameState) (n : Nat) (p : PlayerState) (c0 c1 d0 d1 : Card)
    (rest : List Card)
    (hphase : s.phase = "playing")
    (hturn : s.current_player_turn = some n)
    (hgp : getPlayer s n = some p)
    (hhand : p.hand = [c0, c1])
    (hdeck : s.deck = d0 :: d1 :: rest) :
    (p.can_split = false → split s n = (some .cannotSplitHand, s))
    ∧ (p.can_split = true → p.balance < p.current_bet →
        split s n = (some .insufficientBalance, s))
    ∧ (p.can_split = true → p.current_bet ≤ p.balance → p.has_split = true →
        split s n = (some .alreadySplit, s))
    ∧ (p.can_split = true → p.current_bet ≤ p.balance → p.has_split = false →
        (split s n).1 = none
        ∧ (split s n).2.deck = rest
        ∧ (split s n).2.current_player_turn = some n
        ∧ (split s n).2.phase = "playing"
        ∧ (∀ m, m ≠ n → getPlayer (split s n).2 m = getPlayer s m)
        ∧ getPlayer (split s n).2 n = some (splitOutcome p c0 c1 d0 d1)
        ∧ (splitOutcome p c0 c1 d0 d1).has_split = true
        ∧ (splitOutcome p c0 c1 d0 d1).can_double_down = true
        ∧ (splitOutcome p c0 c1 d0 d1).can_split = false
        ∧ (splitOutcome p c0 c1 d0 d1).playing_split_hand = false
        ∧ (splitOutcome p c0 c1 d0 d1).balance = p.balance - p.current_bet
        ∧ (splitOutcome p c0 c1 d0 d1).split_bet = p.current_bet
        ∧ (splitOutcome p c0 c1 d0 d1).hand = [c0, d0]
        ∧ (splitOutcome p c0 c1 d0 d1).split_hand = some [c1, d1]
        ∧ (isBlackjack [c0, d0] = true → (splitOutcome p c0 c1 d0 d1).stood = true)
        ∧ (isBlackjack (splitOutcome p c0 c1 d0 d1).hand
            && !(splitOutcome p c0 c1 d0 d1).has_split) = false) := by
  refine ⟨?_, ?_, ?_, ?_⟩
  · intro hcsf
    unfold split
    rw [hphase, if_neg (by decide), hturn, if_neg (by simp), hgp]
    dsimp only
    rw [hcsf]
    simp
  · intro hcs hlt
    unfold split
    rw [hphase, if_neg (by decide), hturn, if_neg (by simp), hgp]
    dsimp only
    rw [hcs]
    simp [hlt]
  · intro hcs hle hhs
    unfold split
    rw [hphase, if_neg (by decide), hturn, if_neg (by simp), hgp]
    dsimp only
    rw [hcs]
    simp only [Bool.not_true, Bool.false_eq_true, if_false]
    rw [if_neg (by omega), hhs]
    simp
  · intro hcs hle hhs
    have h := split_eval s n p c0 c1 d0 d1 rest hphase hturn hgp hhand hdeck hcs hle hhs
    have hgp' : lookupSeat s.players n = some p := hgp
    refine ⟨by rw [h], by rw [h], by rw [h]; exact hturn, by rw [h]; exact hphase,
      ?_, ?_, ?_, ?_, ?_, ?_, ?_, ?_, ?_, ?_, ?_, ?_⟩
    · intro m hm
      rw [h]
      show lookupSeat _ m = getPlayer s m
      rw [lookupSeat_updateSeat_other _ _ _ _ hm, lookupSeat_updateSeat_other _ _ _ _ hm,
        lookupSeat_updateSeat_other _ _ _ _ hm]
      rfl
    · rw [h]
      show lookupSeat _ n = _
      rw [lookupSeat_updateSeat_self, lookupSeat_updateSeat_self,
        lookupSeat_updateSeat_self, hgp']
      rfl
    · unfold splitOutcome; dsimp only; split <;> rfl
    · unfold splitOutcome; dsimp only; split <;> rfl
    · unfold splitOutcome; dsimp only; split <;> rfl
    · unfold splitOutcome; dsimp only; split <;> rfl
    · unfold splitOutcome; dsimp only; split <;> rfl
    · unfold splitOutcome; dsimp only; split <;> rfl
    · unfold splitOutcome; dsimp only; split <;> rfl
    · unfold splitOutcome; dsimp only; split <;> rfl
    · intro hbj
      simp [splitOutcome, hbj]
    · unfold splitOutcome; dsimp only; split <;> simp

/-- Witness for C7: seat 1 splits its pair of eights in a concrete snapshot;
the call succeeds and produces exactly the split seat state. -/
theorem c7_witness :
    (split c7WitState 1).1 = none
    ∧ getPlayer (split c7WitState 1).2 1 =
        some (splitOutcome pairSeat ⟨.r8, .hearts⟩ ⟨.r8, .diamonds⟩
          ⟨.r2, .hearts⟩ ⟨.r3, .hearts⟩) := by
  have h := (c7_split c7WitState 1 pairSeat ⟨.r8, .hearts⟩ ⟨.r8, .diamonds⟩
    ⟨.r2, .hearts⟩ ⟨.r3, .hearts⟩ [⟨.r4, .hearts⟩]
    (by decide) (by decide) (by decide) (by decide) (by decide)).2.2.2
    (by decide) (by decide) (by decide)
  exact ⟨h.1, h.2.2.2.2.2.1⟩

/-- Witness for C8: a split seat whose primary two cards total 21 settles
against a dealer 19 without the result `blackjack`. -/
theorem c8_witness :
    (settlePrimary 19 false false c8WitSeat).result ≠ some "blackjack" :=
  (c8_split_never_natural.2.1 19 false false c8WitSeat (by decide) (by decide)).1

/-! ### Dealer-natural early resolution -/

theorem dealPass_fields :
    ∀ (ks : List Nat) (s : GameState),
      (dealPass s ks).2.current_player_turn = s.current_player_turn
      ∧ (dealPass s ks).2.phase = s.phase
      ∧ (dealPass s ks).2.round_active = s.round_active := by
  intro ks
  induction ks with
  | nil => intro s; exact ⟨rfl, rfl, rfl⟩
  | cons k ks ih =>
    intro s
    unfold dealPass
    cases hgp : getPlayer s k with
    | none => exact ih s
    | some p =>
      dsimp only
      cases hb : p.has_bet with
      | false =>
        rw [if_neg (by decide)]
        exact ih s
      | true =>
        rw [if_pos rfl]
        cases hdl : dealOne s.deck with
        | none => exact ⟨rfl, rfl, rfl⟩
        | some cr =>
          obtain ⟨c, rest⟩ := cr
          dsimp only
          have h := ih (setPlayer { s with deck := rest } k { p with hand := p.hand ++ [c] })
          rw [hb] at h
          simpa using h

theorem dealRound_fields (s : GameState) :
    (dealRound s).2.current_player_turn = s.current_player_turn
    ∧ (dealRound s).2.phase = s.phase
    ∧ (dealRound s).2.round_active = s.round_active := by
  unfold dealRound
  rcases hp : dealPass s (sortedSeatNumbers s) with ⟨e, s1⟩
  have hf := dealPass_fields (sortedSeatNumbers s) s
  rw [hp] at hf
  simp only at hf
  cases e with
  | some err => exact hf
  | none =>
    dsimp only
    cases hd : dealOne s1.deck with
    | none => exact hf
    | some cr =>
      obtain ⟨c, rest⟩ := cr
      dsimp only
      simpa using hf

/-- **C3.** When the deal gives the dealer a natural, `start_playing_phase`
resolves every betting seat immediately — push with the bet refunded for a
seat holding its own natural, lose with no credit otherwise — marking those
seats `has_acted` and `stood`; the phase becomes `round_over` with
`round_active` false and `currentTurn` is never assigned (it keeps its
pre-deal value). -/
theorem c3_dealer_natural (s : GameState)
    (hphase : s.phase = "betting")
    (hbets : all_bets_placed s = true)
    (hd1 : (dealRound s).1 = none)
    (hd2 : (dealRound (dealRound s).2).1 = none)
    (hnat : isBlackjack (dealRound (dealRound s).2).2.dealer_hand = true) :
    (start_playing_phase s).1 = none
    ∧ (start_playing_phase s).2.phase = "round_over"
    ∧ (start_playing_phase s).2.round_active = false
    ∧ (start_playing_phase s).2.current_player_turn = s.current_player_turn
    ∧ (∀ n, getPlayer (start_playing_phase s).2 n =
        (getPlayer (dealRound (dealRound s).2).2 n).map resolveDealerNatural)
    ∧ (∀ p : PlayerState, p.has_bet = true →
        (isBlackjack p.hand = true →
          resolveDealerNatural p =
            { p with
              result := some "push", balance := p.balance + p.current_bet,
              has_acted := true, stood := true })
        ∧ (isBlackjack p.hand = false →
          resolveDealerNatural p =
            { p with result := some "lose", has_acted := true, stood := true }))
    ∧ (∀ p : PlayerState, p.has_bet = false → resolveDealerNatural p = p) := by
  have hmain : (start_playing_phase s).1 = none
      ∧ (start_playing_phase s).2.phase = "round_over"
      ∧ (start_playing_phase s).2.round_active = false
      ∧ (start_playing_phase s).2.current_player_turn = s.current_player_turn
      ∧ (∀ n, getPlayer (start_playing_phase s).2 n =
          (getPlayer (dealRound (dealRound s).2).2 n).map resolveDealerNatural) := by
    unfold start_playing_phase
    rw [hphase, hbets]
    rw [if_neg (by decide)]
    rcases hD1 : dealRound s with ⟨e1, s1⟩
    rw [hD1] at hd1 hd2 hnat
    simp only at hd1 hd2 hnat
    subst hd1
    dsimp only
    rcases hD2 : dealRound s1 with ⟨e2, s2⟩
    rw [hD2] at hd2 hnat
    simp only at hd2 hnat
    subst hd2
    dsimp only
    rw [hnat, if_pos rfl]
    have h1 := (dealRound_fields s).1
    rw [hD1] at h1
    have h2 := (dealRound_fields s1).1
    rw [hD2] at h2
    simp only at h1 h2
    refine ⟨rfl, rfl, rfl, h2.trans h1, ?_⟩
    intro n
    dsimp only [getPlayer]
    exact lookupSeat_map resolveDealerNatural s2.players n
  refine ⟨hmain.1, hmain.2.1, hmain.2.2.1, hmain.2.2.2.1, hmain.2.2.2.2, ?_, ?_⟩
  · intro p hb
    constructor
    · intro hbj
      unfold resolveDealerNatural
      rw [hb, hbj]
      simp
    · intro hbj
      unfold resolveDealerNatural
      rw [hb, hbj]
      simp
  · intro p hb
    unfold resolveDealerNatural
    rw [hb]
    simp

/-- Witness for C3: with bets 50 and 100 and a deck handing the dealer a
natural, both seats resolve to lose with no credit, the round ends without
entering the playing phase, and no turn is assigned. -/
theorem c3_witness :
    (start_playing_phase c3WitState).1 = none
    ∧ (start_playing_phase c3WitState).2.phase = "round_over"
    ∧ (start_playing_phase c3WitState).2.round_active = false
    ∧ (start_playing_phase c3WitState).2.current_player_turn = none
    ∧ (getPlayer (start_playing_phase c3WitState).2 1).map
        (fun p => (p.result, p.balance, p.has_acted, p.stood)) =
        some (some "lose", 950, true, true)
    ∧ (getPlayer (start_playing_phase c3WitState).2 2).map
        (fun p => (p.result, p.balance, p.has_acted, p.stood)) =
        some (some "lose", 900, true, true) := by
  have h := c3_dealer_natural c3WitState (by decide) (by decide) (by decide)
    (by decide) (by decide)
  refine ⟨h.1, h.2.1, h.2.2.1, ?_, ?_, ?_⟩
  · rw [h.2.2.2.1]; rfl
  · rw [h.2.2.2.2.1 1]; decide
  · rw [h.2.2.2.2.1 2]; decide

/-! ### Error atomicity -/

theorem dealPass_error :
    ∀ (ks : List Nat) (s : GameState) (e : GameError) (s' : GameState),
      dealPass s ks = (some e, s') → e = .deckExhausted := by
  intro ks
  induction ks with
  | nil =>
    intro s e s' h
    unfold dealPass at h
    exact absurd h (by simp)
  | cons k ks ih =>
    intro s e s' h
    unfold dealPass at h
    split at h
    · exact ih _ _ _ h
    · split at h
      · split at h
        · injection h with h1 h2
          injection h1 with h1
          exact h1.symm
        · exact ih _ _ _ h
      · exact ih _ _ _ h

theorem dealRound_error (s : GameState) (e : GameError) (s' : GameState)
    (h : dealRound s = (some e, s')) : e = .deckExhausted := by
  unfold dealRound at h
  rcases hp : dealPass s (sortedSeatNumbers s) with ⟨ep, s1⟩
  rw [hp] at h
  cases ep with
  | some err =>
    dsimp only at h
    injection h with h1 h2
    injection h1 with h1
    subst h1
    exact dealPass_error _ _ _ _ hp
  | none =>
    dsimp only at h
    cases hdl : dealOne s1.deck with
    | none =>
      rw [hdl] at h
      dsimp only at h
      injection h with h1 h2
      injection h1 with h1
      exact h1.symm
    | some cr =>
      obtain ⟨c, rest⟩ := cr
      rw [hdl] at h
      dsimp only at h
      exact absurd h (by simp)

theorem dealerDraw_error :
    ∀ (deck dealer : List Card) (e : GameError) (r : List Card × List Card),
      dealerDraw dealer deck = (some e, r) → e = .deckExhausted := by
  intro deck
  induction deck with
  | nil =>
    intro dealer e r h
    unfold dealerDraw at h
    split at h
    · injection h with h1 h2
      injection h1 with h1
      exact h1.symm
    · injection h with h1 h2
      exact Option.noConfusion h1
  | cons c rest ih =>
    intro dealer e r h
    unfold dealerDraw at h
    split at h
    · exact ih _ _ _ h
    · injection h with h1 h2
      exact Option.noConfusion h1

/-- Every error return of `hit_split` leaves the state untouched. -/
theorem hit_split_unchanged (s : GameState) (n : Nat) (e : GameError) (s' : GameState)
    (h : hit_split s n = (some e, s')) : s' = s := by
  unfold hit_split at h
  repeat'
    first
      | split at h
      | (dsimp only at h; split at h)
  all_goals try dsimp only at h
  all_goals
    first
      | (injection h with h1 h2; exact Option.noConfusion h1)
      | (injection h with h1 h2; exact h2.symm)

/-- Every error return of `stand_split` leaves the state untouched. -/
theorem stand_split_unchanged (s : GameState) (n : Nat) (e : GameError) (s' : GameState)
    (h : stand_split s n = (some e, s')) : s' = s := by
  unfold stand_split at h
  repeat'
    first
      | split at h
      | (dsimp only at h; split at h)
  all_goals try dsimp only at h
  all_goals
    first
      | (injection h with h1 h2; exact Option.noConfusion h1)
      | (injection h with h1 h2; exact h2.symm)

/-- Every error return of `hit` leaves the state untouched. -/
theorem hit_unchanged (s : GameState) (n : Nat) (e : GameError) (s' : GameState)
    (h : hit s n = (some e, s')) : s' = s := by
  unfold hit at h
  repeat'
    first
      | split at h
      | (dsimp only at h; split at h)
  all_goals try dsimp only at h
  all_goals
    first
      | exact hit_split_unchanged _ _ _ _ h
      | (injection h with h1 h2; exact Option.noConfusion h1)
      | (injection h with h1 h2; exact h2.symm)

/-- Every error return of `stand` leaves the state untouched. -/
theorem stand_unchanged (s : GameState) (n : Nat) (e : GameError) (s' : GameState)
    (h : stand s n = (some e, s')) : s' = s := by
  unfold stand at h
  repeat'
    first
      | split at h
      | (dsimp only at h; split at h)
  all_goals try dsimp only at h
  all_goals
    first
      | exact stand_split_unchanged _ _ _ _ h
      | (injection h with h1 h2; exact Option.noConfusion h1)
      | (injection h with h1 h2; exact h2.symm)

theorem double_down_atomic (s : GameState) (n : Nat) (e : GameError) (s' : GameState)
    (h : double_down s n = (some e, s')) (hl : ListedError e) : s' = s := by
  unfold double_down at h
  repeat'
    first
      | split at h
      | (dsimp only at h; split at h)
  all_goals try dsimp only at h
  all_goals
    first
      | (injection h with h1 h2; exact Option.noConfusion h1)
      | (injection h with h1 h2; injection h1 with h1; subst h1;
         first
           | exact h2.symm
           | simp [ListedError] at hl)

theorem split_atomic (s : GameState) (n : Nat) (e : GameError) (s' : GameState)
    (h : split s n = (some e, s')) (hl : ListedError e) : s' = s := by
  unfold split at h
  repeat'
    first
      | split at h
      | (dsimp only at h; split at h)
  all_goals try dsimp only at h
  all_goals
    first
      | (injection h with h1 h2; exact Option.noConfusion h1)
      | (injection h with h1 h2; injection h1 with h1; subst h1;
         first
           | exact h2.symm
           | simp [ListedError] at hl)

theorem dealer_play_atomic (s : GameState) (e : GameError) (s' : GameState)
    (h : dealer_play s = (some e, s')) (hl : ListedError e) : s' = s := by
  unfold dealer_play at h
  by_cases hph : (s.phase != "dealer_turn") = true
  · rw [if_pos hph] at h
    injection h with h1 h2
    exact h2.symm
  · rw [if_neg hph] at h
    rcases hD : dealerDraw s.dealer_hand s.deck with ⟨eo, dealer, deck⟩
    rw [hD] at h
    cases eo with
    | some err =>
      dsimp only at h
      injection h with h1 h2
      injection h1 with h1
      subst h1
      have hde : err = .deckExhausted := dealerDraw_error _ _ _ _ hD
      subst hde
      simp [ListedError] at hl
    | none =>
      dsimp only at h
      injection h with h1 h2
      exact Option.noConfusion h1

theorem start_playing_phase_atomic (s : GameState) (e : GameError) (s' : GameState)
    (h : start_playing_phase s = (some e, s')) (hl : ListedError e) : s' = s := by
  unfold start_playing_phase at h
  by_cases hc : (s.phase != "betting" || !all_bets_placed s) = true
  · rw [if_pos hc] at h
    injection h with h1 h2
    exact h2.symm
  · rw [if_neg hc] at h
    rcases hD1 : dealRound s with ⟨e1, s1⟩
    rw [hD1] at h
    cases e1 with
    | some err =>
      dsimp only at h
      injection h with h1 h2
      injection h1 with h1
      subst h1
      have hde : err = .deckExhausted := dealRound_error _ _ _ hD1
      subst hde
      simp [ListedError] at hl
    | none =>
      dsimp only at h
      rcases hD2 : dealRound s1 with ⟨e2, s2⟩
      rw [hD2] at h
      cases e2 with
      | some err =>
        dsimp only at h
        injection h with h1 h2
        injection h1 with h1
        subst h1
        have hde : err = .deckExhausted := dealRound_error _ _ _ hD2
        subst hde
        simp [ListedError] at hl
      | none =>
        dsimp only at h
        split at h
        · injection h with h1 h2
          exact Option.noConfusion h1
        · injection h with h1 h2
          exact Option.noConfusion h1

/-- **C9.** Every action is atomic on the spec's precondition failures:
when it fails with a wrong-phase, not-your-turn, insufficient-balance, or
disallowed-action error, the returned state is exactly the input state —
no balance, bet, hand, flag, deck, phase, or turn has changed. `place_bet`
and `add_player` signal failure by returning `false`, also leaving the
state untouched. In particular `dealer_play` on a `round_over` snapshot
fails with the phase error and changes nothing. -/
theorem c9_error_atomicity :
    (∀ (s : GameState) (n : Nat) (e : GameError) (s' : GameState),
      hit s n = (some e, s') → ListedError e → s' = s)
    ∧ (∀ (s : GameState) (n : Nat) (e : GameError) (s' : GameState),
      stand s n = (some e, s') → ListedError e → s' = s)
    ∧ (∀ (s : GameState) (n : Nat) (e : GameError) (s' : GameState),
      double_down s n = (some e, s') → ListedError e → s' = s)
    ∧ (∀ (s : GameState) (n : Nat) (e : GameError) (s' : GameState),
      split s n = (some e, s') → ListedError e → s' = s)
    ∧ (∀ (s : GameState) (n : Nat) (e : GameError) (s' : GameState),
      hit_split s n = (some e, s') → ListedError e → s' = s)
    ∧ (∀ (s : GameState) (n : Nat) (e : GameError) (s' : GameState),
      stand_split s n = (some e, s') → ListedError e → s' = s)
    ∧ (∀ (s : GameState) (e : GameError) (s' : GameState),
      dealer_play s = (some e, s') → ListedError e → s' = s)
    ∧ (∀ (s : GameState) (e : GameError) (s' : GameState),
      start_playing_phase s = (some e, s') → ListedError e → s' = s)
    ∧ (∀ (s : GameState) (n : Nat) (amount : Int),
      (place_bet s n amount).1 = false → (place_bet s n amount).2 = s)
    ∧ (∀ (s : GameState) (n : Nat) (uid : String) (bal : Int),
      (add_player s n uid bal).1 = false → (add_player s n uid bal).2 = s)
    ∧ (∀ s : GameState, s.phase = "round_over" →
      dealer_play s = (some .invalidPhase, s)) := by
  refine ⟨?_, ?_, ?_, ?_, ?_, ?_, ?_, ?_, ?_, ?_, ?_⟩
  · intro s n e s' h _
    exact hit_unchanged s n e s' h
  · intro s n e s' h _
    exact stand_unchanged s n e s' h
  · exact double_down_atomic
  · exact split_atomic
  · intro s n e s' h _
    exact hit_split_unchanged s n e s' h
  · intro s n e s' h _
    exact stand_split_unchanged s n e s' h
  · exact dealer_play_atomic
  · exact start_playing_phase_atomic
  · intro s n amount h
    unfold place_bet at h ⊢
    rcases hgp : getPlayer s n with _ | p
    · rfl
    · rw [hgp] at h
      dsimp only at h ⊢
      by_cases hc : (decide (amount ≤ 0) || decide (p.balance < amount)) = true
      · rw [if_pos hc]
      · rw [if_neg hc] at h
        simp at h
  · intro s n uid bal h
    unfold add_player at h ⊢
    by_cases h5 : 5 ≤ s.players.length
    · rw [if_pos h5]
    · rw [if_neg h5] at h ⊢
      by_cases hin : (lookupSeat s.players n).isSome = true
      · rw [if_pos hin]
      · rw [if_neg hin] at h
        simp at h
  · intro s hph
    unfold dealer_play
    rw [hph]
    rw [if_pos (by decide)]

/-- Witness for C9: hitting in the waiting phase of a fresh game fails with
the phase error and leaves the snapshot untouched; and `dealer_play` on a
finished round fails the same way. -/
theorem c9_witness :
    (hit (initGame sixDeckShoe) 1).2 = initGame sixDeckShoe
    ∧ dealer_play { initGame sixDeckShoe with phase := "round_over" } =
        (some .invalidPhase, { initGame sixDeckShoe with phase := "round_over" }) := by
  constructor
  · exact c9_error_atomicity.1 (initGame sixDeckShoe) 1 .invalidPhase _ rfl
      (Or.inl rfl)
  · exact c9_error_atomicity.2.2.2.2.2.2.2.2.2.2 _ rfl

/-! ### Serialization round-trip -/

theorem card_from_to_dict (c : Card) : Card.from_dict c.to_dict = some c := by
  obtain ⟨r, u⟩ := c
  cases r <;> cases u <;> decide

theorem seqCards_round (l : List Card) : seqCards (l.map Card.to_dict) = some l := by
  induction l with
  | nil => rfl
  | cons c cs ih =>
    simp [seqCards, card_from_to_dict c, ih]

theorem player_from_to_dict (p : PlayerState) (h : p.split_hand ≠ some []) :
    PlayerState.from_dict p.to_dict = some p := by
  obtain ⟨pn, uid, bal, hand, sh, cb, sb, hb, ha, st, bu, ss, sbu, re, sre, cdd,
    csp, hsp, psh⟩ := p
  dsimp only at h
  unfold PlayerState.from_dict PlayerState.to_dict
  dsimp only
  rw [seqCards_round]
  cases sh with
  | none => rfl
  | some l =>
    cases l with
    | nil => exact absurd rfl h
    | cons c cs' =>
      have hs := seqCards_round (c :: cs')
      rw [List.map_cons] at hs
      simp only [Option.map_some', List.map_cons]
      rw [hs]

theorem seqPlayers_round (l : List (Nat × PlayerState))
    (h : ∀ kv ∈ l, kv.2.split_hand ≠ some []) :
    seqPlayers (l.map (fun kv => (kv.1, kv.2.to_dict))) = some l := by
  induction l with
  | nil => rfl
  | cons kv l ih =>
    obtain ⟨k, p⟩ := kv
    have h1 : p.split_hand ≠ some [] := h (k, p) (List.mem_cons_self _ _)
    have h2 : ∀ kv ∈ l, kv.2.split_hand ≠ some [] :=
      fun kv hm => h kv (List.mem_cons_of_mem _ hm)
    simp [seqPlayers, player_from_to_dict p h1, ih h2]

/-- **C10 counterexample.** Serialization is not injective on states whose
split hand is the empty list: `from_dict(to_dict(...))` silently turns
`split_hand = []` into `split_hand = None` (the `if data.get('split_hand')`
truthiness check), so the round trip does not reconstruct every state. -/
theorem c10_counterexample :
    GameState.from_dict (GameState.to_dict true c10BadState) ≠ some c10BadState
    ∧ (getPlayer c10BadState 1).map (fun p => p.split_hand) = some (some [])
    ∧ (GameState.from_dict (GameState.to_dict true c10BadState)).map
        (fun s => (getPlayer s 1).map (fun p => p.split_hand)) =
      some (some none) := by
  decide

/-- **C10 (amended).** For every state in which no seat carries an *empty*
split-hand list — which holds for every state the engine produces, since
`split` always creates the split hand with one card and only adds to it —
`from_dict(to_dict(include_deck=True))` reconstructs the state exactly:
phase, turn, `round_active`, dealer hand, the full deck in order, and every
seat's complete state. (The one exception, an empty split-hand list, comes
back as `None`.) -/
theorem c10_round_trip (s : GameState)
    (h : ∀ kv ∈ s.players, kv.2.split_hand ≠ some []) :
    GameState.from_dict (GameState.to_dict true s) = some s := by
  unfold GameState.from_dict GameState.to_dict
  dsimp only
  rw [if_pos rfl, Option.getD_some, seqCards_round]
  dsimp only
  rw [seqCards_round]
  dsimp only
  rw [seqPlayers_round s.players h]

/-- Witness for C10: a snapshot with a real split hand round-trips to
exactly itself. -/
theorem c10_witness :
    GameState.from_dict (GameState.to_dict true c10WitState) = some c10WitState :=
  c10_round_trip c10WitState (by decide)

/-! ### Invariant machinery for reachable states -/

theorem lookupSeat_mem :
    ∀ (l : List (Nat × PlayerState)) (n : Nat) (p : PlayerState),
      lookupSeat l n = some p → (n, p) ∈ l := by
  intro l
  induction l with
  | nil => intro n p h; simp [lookupSeat] at h
  | cons kv l ih =>
    intro n p h
    unfold lookupSeat at h
    by_cases hk : kv.1 = n
    · rw [if_pos hk] at h
      injection h with h
      subst h
      subst hk
      exact List.mem_cons_self _ _
    · rw [if_neg hk] at h
      exact List.mem_cons_of_mem _ (ih n p h)

theorem mem_updateSeat :
    ∀ (l : List (Nat × PlayerState)) (n : Nat) (q : PlayerState),
      ∀ kv ∈ updateSeat l n q, (kv ∈ l ∧ kv.1 ≠ n) ∨ kv = (n, q) := by
  intro l
  induction l with
  | nil => intro n q kv h; simp [updateSeat] at h
  | cons hd l ih =>
    intro n q kv h
    unfold updateSeat at h
    by_cases hk : hd.1 = n
    · rw [if_pos hk] at h
      rcases List.mem_cons.mp h with h1 | h1
      · exact Or.inr h1
      · rcases ih n q kv h1 with ⟨h2, h3⟩ | h2
        · exact Or.inl ⟨List.mem_cons_of_mem _ h2, h3⟩
        · exact Or.inr h2
    · rw [if_neg hk] at h
      rcases List.mem_cons.mp h with h1 | h1
      · subst h1
        exact Or.inl ⟨List.mem_cons_self _ _, hk⟩
      · rcases ih n q kv h1 with ⟨h2, h3⟩ | h2
        · exact Or.inl ⟨List.mem_cons_of_mem _ h2, h3⟩
        · exact Or.inr h2

theorem lookupSeat_cons (kv : Nat × PlayerState) (l : List (Nat × PlayerState))
    (n : Nat) :
    lookupSeat (kv :: l) n = if kv.1 = n then some kv.2 else lookupSeat l n := rfl

theorem updateSeat_cons (kv : Nat × PlayerState) (l : List (Nat × PlayerState))
    (n : Nat) (q : PlayerState) :
    updateSeat (kv :: l) n q =
      if kv.1 = n then (n, q) :: updateSeat l n q else kv :: updateSeat l n q := rfl

theorem updateSeat_updateSeat :
    ∀ (l : List (Nat × PlayerState)) (n : Nat) (q1 q2 : PlayerState),
      updateSeat (updateSeat l n q1) n q2 = updateSeat l n q2 := by
  intro l
  induction l with
  | nil => intro n q1 q2; rfl
  | cons hd l ih =>
    intro n q1 q2
    rw [updateSeat_cons hd l n q1, updateSeat_cons hd l n q2]
    by_cases hk : hd.1 = n
    · rw [if_pos hk, if_pos hk, updateSeat_cons, if_pos rfl, ih]
    · rw [if_neg hk, if_neg hk, updateSeat_cons, if_neg hk, ih]

theorem setPlayer_setPlayer (s : GameState) (n : Nat) (q1 q2 : PlayerState) :
    setPlayer (setPlayer s n q1) n q2 = setPlayer s n q2 := by
  unfold setPlayer
  dsimp only
  rw [updateSeat_updateSeat]

theorem lookupSeat_append_left :
    ∀ (l1 l2 : List (Nat × PlayerState)) (n : Nat) (p : PlayerState),
      lookupSeat l1 n = some p → lookupSeat (l1 ++ l2) n = some p := by
  intro l1
  induction l1 with
  | nil => intro l2 n p h; simp [lookupSeat] at h
  | cons kv l ih =>
    intro l2 n p h
    rw [lookupSeat_cons] at h
    rw [List.cons_append, lookupSeat_cons]
    by_cases hk : kv.1 = n
    · rw [if_pos hk] at h ⊢; exact h
    · rw [if_neg hk] at h ⊢; exact ih l2 n p h

theorem lookupSeat_none_not_mem :
    ∀ (l : List (Nat × PlayerState)) (n : Nat),
      lookupSeat l n = none → n ∉ l.map Prod.fst := by
  intro l
  induction l with
  | nil => intro n _ h; simp at h
  | cons kv l ih =>
    intro n h hmem
    unfold lookupSeat at h
    by_cases hk : kv.1 = n
    · rw [if_pos hk] at h; exact Option.noConfusion h
    · rw [if_neg hk] at h
      rcases List.mem_cons.mp hmem with h1 | h1
      · exact hk h1.symm
      · exact ih n h h1

theorem keys_map_snd (f : PlayerState → PlayerState) (l : List (Nat × PlayerState)) :
    (l.map (fun kv => (kv.1, f kv.2))).map Prod.fst = l.map Prod.fst := by
  rw [List.map_map]
  rfl

/-- The seat returned by the turn scan exists and is pending on its primary
flags. -/
theorem nextTurn_some_pending (s : GameState) (cur : Option Nat) (k : Nat)
    (h : get_next_player_turn s cur = some k) :
    ∃ p, getPlayer s k = some p ∧ p.has_acted = false ∧ p.busted = false
      ∧ p.stood = false := by
  have hP := List.find?_some h
  unfold seatPending at hP
  cases hgp : getPlayer s k with
  | none => rw [hgp] at hP; simp at hP
  | some p =>
    rw [hgp] at hP
    unfold pendingPrimary at hP
    simp only [Bool.and_eq_true, Bool.not_eq_true'] at hP
    exact ⟨p, rfl, hP.1.1, hP.1.2, hP.2⟩

/-- `Inv` ignores the deck. -/
theorem inv_deck (s : GameState) (d : List Card) (h : Inv s) :
    Inv { s with deck := d } := h

/-- Invariant preservation for an action that rewrites the acting seat but
leaves the turn in place (the seat keeps control). -/
theorem inv_stay (s : GameState) (n : Nat) (p' : PlayerState)
    (hInv : Inv s)
    (hturn : s.current_player_turn = some n)
    (hacted' : p'.has_acted = false)
    (hflag' : p'.playing_split_hand = true → p'.has_split = true) :
    Inv (setPlayer s n p') := by
  obtain ⟨hI1, hI2, hI3, hI4⟩ := hInv
  refine ⟨?_, ?_, ?_, ?_⟩
  · intro m hm
    have hm' : s.current_player_turn = some m := hm
    obtain ⟨hph, q, hq, hqa⟩ := hI1 m hm'
    refine ⟨hph, ?_⟩
    by_cases hmn : m = n
    · subst hmn
      exact ⟨p', getPlayer_setPlayer_self s m p' q hq, hacted'⟩
    · exact ⟨q, by rw [getPlayer_setPlayer_other s n m p' hmn]; exact hq, hqa⟩
  · intro kv hmem hpsh
    rcases mem_updateSeat s.players n p' kv hmem with ⟨hin, _⟩ | heq
    · exact hI2 kv hin hpsh
    · subst heq
      exact hflag' hpsh
  · intro kv hmem hpsh hact
    rcases mem_updateSeat s.players n p' kv hmem with ⟨hin, _⟩ | heq
    · exact hI3 kv hin hpsh hact
    · subst heq
      exact hturn
  · show ((setPlayer s n p').players.map Prod.fst).Nodup
    rw [keys_setPlayer]
    exact hI4

/-- Invariant preservation for an action that finishes the acting seat and
recomputes the turn, entering `dealer_turn` when nobody is pending. -/
theorem inv_advance (t : GameState) (n : Nat) (p' : PlayerState)
    (hInv : Inv t)
    (hturn : t.current_player_turn = some n)
    (hphase : t.phase = "playing")
    (hacted' : p'.has_acted = true)
    (hflag' : p'.playing_split_hand = true → p'.has_split = true) :
    Inv (if (get_next_player_turn (setPlayer t n p') (some n)).isNone then
          { setPlayer t n p' with
            current_player_turn := get_next_player_turn (setPlayer t n p') (some n),
            phase := "dealer_turn" }
        else
          { setPlayer t n p' with
            current_player_turn := get_next_player_turn (setPlayer t n p') (some n) }) := by
  obtain ⟨hI1, hI2, hI3, hI4⟩ := hInv
  have hSF : SplitFlagInv (setPlayer t n p') := by
    intro kv hmem hpsh
    rcases mem_updateSeat t.players n p' kv hmem with ⟨hin, _⟩ | heq
    · exact hI2 kv hin hpsh
    · subst heq
      exact hflag' hpsh
  have hAS : ∀ kv ∈ (setPlayer t n p').players, kv.2.playing_split_hand = true →
      kv.2.has_acted = false → False := by
    intro kv hmem hpsh hact
    rcases mem_updateSeat t.players n p' kv hmem with ⟨hin, hne⟩ | heq
    · have := hI3 kv hin hpsh hact
      rw [hturn] at this
      injection this with this
      exact hne this.symm
    · subst heq
      dsimp only at hact
      rw [hacted'] at hact
      exact Bool.noConfusion hact
  have hKN : ((setPlayer t n p').players.map Prod.fst).Nodup := by
    rw [keys_setPlayer]; exact hI4
  cases hnt : get_next_player_turn (setPlayer t n p') (some n) with
  | none =>
    rw [if_pos (show (none : Option Nat).isNone = true from rfl)]
    refine ⟨?_, hSF, ?_, hKN⟩
    · intro m hm
      exact absurd hm (by simp)
    · intro kv hmem hpsh hact
      exact (hAS kv hmem hpsh hact).elim
  | some k =>
    rw [if_neg (show ¬ ((some k : Option Nat).isNone = true) by simp)]
    refine ⟨?_, hSF, ?_, hKN⟩
    · intro m hm
      have hmk : m = k := by
        have : (some k : Option Nat) = some m := hm
        injection this with this
        exact this.symm
      subst hmk
      obtain ⟨q, hq, hqa, -, -⟩ := nextTurn_some_pending _ _ _ hnt
      exact ⟨hphase, q, hq, hqa⟩
    · intro kv hmem hpsh hact
      exact (hAS kv hmem hpsh hact).elim

/-- A prefix whose cards are all drawn from a base list, followed by the
leftovers, is a permutation of the base list. -/
theorem perm_append_consume :
    ∀ (pre base : List Card), availableIn pre base = true →
      List.Perm (pre ++ consumeFrom base pre) base := by
  intro pre
  induction pre with
  | nil => intro base _; exact List.Perm.refl base
  | cons c cs ih =>
    intro base h
    unfold availableIn at h
    rw [Bool.and_eq_true] at h
    have hmem : c ∈ base := by simpa using h.1
    have ihc := ih (base.erase c) h.2
    show List.Perm (c :: (cs ++ consumeFrom (base.erase c) cs)) base
    exact (List.Perm.cons c ihc).trans (List.perm_cons_erase hmem).symm

set_option maxRecDepth 100000

set_option maxHeartbeats 2000000

/-- C5: the specification's turn invariant fails on reachable states: after
both seats of a two-player round split and play out their hands, two seats
hold `playing_split_hand` at once (and the turn is still non-null with no
pending seat on the claimed reading); and when the only betting seat is
dealt a natural and a second player then joins, the phase is `playing` with
a pending seat yet the turn is null. -/
theorem c5_counterexample :
    (Reachable cex1S11 ∧ ¬ ClaimedTurnInvariant cex1S11) ∧
    (Reachable cex2S5 ∧ ¬ ClaimedTurnInvariant cex2S5) := by
  have h0 : Reachable (initGame cex1_deck) :=
    Reachable.init cex1_deck (perm_append_consume cex1Prefix sixDeckShoe (by decide))
  have h1 : Reachable (add_player (initGame cex1_deck) 1 "u1" 1000).2 :=
    Reachable.addPlayerStep _ 1 "u1" 1000 h0
  have h2 : Reachable cex1S2 := Reachable.addPlayerStep _ 2 "u2" 1000 h1
  have h3 : Reachable cex1S3 :=
    Reachable.startBettingStep cex1S2 sixDeckShoe (List.Perm.refl _) h2
  have h4 : Reachable (place_bet cex1S3 1 100).2 :=
    Reachable.placeBetStep cex1S3 1 100 h3
  have h5 : Reachable cex1S5 := Reachable.placeBetStep _ 2 100 h4
  have h6 : Reachable cex1S6 := Reachable.startPlayingStep cex1S5 h5 (by decide)
  have h7 : Reachable cex1S7 := Reachable.splitStep cex1S6 1 h6 (by decide)
  have h8 : Reachable cex1S8 := Reachable.standStep cex1S7 1 h7 (by decide)
  have h9 : Reachable cex1S9 := Reachable.standStep cex1S8 1 h8 (by decide)
  have h10 : Reachable cex1S10 := Reachable.splitStep cex1S9 2 h9 (by decide)
  have h11 : Reachable cex1S11 := Reachable.standStep cex1S10 2 h10 (by decide)
  have g0 : Reachable (initGame cex2_deck) :=
    Reachable.init cex2_deck (perm_append_consume cex2Prefix sixDeckShoe (by decide))
  have g1 : Reachable (add_player (initGame cex2_deck) 1 "u1" 1000).2 :=
    Reachable.addPlayerStep _ 1 "u1" 1000 g0
  have g2 : Reachable (start_betting_phase
      (add_player (initGame cex2_deck) 1 "u1" 1000).2 sixDeckShoe) :=
    Reachable.startBettingStep _ sixDeckShoe (List.Perm.refl _) g1
  have g3 : Reachable (place_bet (start_betting_phase
      (add_player (initGame cex2_deck) 1 "u1" 1000).2 sixDeckShoe) 1 100).2 :=
    Reachable.placeBetStep _ 1 100 g2
  have g4 : Reachable cex2S4 := Reachable.startPlayingStep _ g3 (by decide)
  have g5 : Reachable cex2S5 := Reachable.addPlayerStep cex2S4 2 "u2" 1000 g4
  refine ⟨⟨h11, ?_⟩, ⟨g5, ?_⟩⟩
  · unfold ClaimedTurnInvariant
    decide
  · unfold ClaimedTurnInvariant
    decide

/-- The settlement of the primary hand touches only result and balance; the
hand-state flags survive. -/
theorem settlePrimary_flags (v : Nat) (b nt : Bool) (p : PlayerState) :
    (settlePrimary v b nt p).playing_split_hand = p.playing_split_hand ∧
    (settlePrimary v b nt p).has_split = p.has_split ∧
    (settlePrimary v b nt p).has_acted = p.has_acted := by
  unfold settlePrimary
  dsimp only
  repeat' split
  all_goals exact ⟨rfl, rfl, rfl⟩

/-- Likewise for the split-hand settlement. -/
theorem settleSplit_flags (v : Nat) (b nt : Bool) (p : PlayerState) :
    (settleSplit v b nt p).playing_split_hand = p.playing_split_hand ∧
    (settleSplit v b nt p).has_split = p.has_split ∧
    (settleSplit v b nt p).has_acted = p.has_acted := by
  unfold settleSplit
  dsimp only
  repeat' split
  all_goals exact ⟨rfl, rfl, rfl⟩

/-- Early dealer-natural resolution keeps the split flags, and only ever
turns `has_acted` on. -/
theorem resolveDealerNatural_flags (p : PlayerState) :
    (resolveDealerNatural p).playing_split_hand = p.playing_split_hand ∧
    (resolveDealerNatural p).has_split = p.has_split ∧
    ((resolveDealerNatural p).has_acted = false → p.has_acted = false) := by
  unfold resolveDealerNatural
  by_cases hb : p.has_bet = true
  · rw [if_pos hb]
    dsimp only
    by_cases hbj : isBlackjack p.hand = true
    · rw [if_pos hbj]
      exact ⟨rfl, rfl, fun h => Bool.noConfusion h⟩
    · rw [if_neg hbj]
      exact ⟨rfl, rfl, fun h => Bool.noConfusion h⟩
  · rw [if_neg hb]
    exact ⟨rfl, rfl, fun h => h⟩

/-- The initial-options pass keeps the split flags, and only ever turns
`has_acted` on. -/
theorem setInitialOptions_flags (p : PlayerState) :
    (setInitialOptions p).playing_split_hand = p.playing_split_hand ∧
    (setInitialOptions p).has_split = p.has_split ∧
    ((setInitialOptions p).has_acted = false → p.has_acted = false) := by
  unfold setInitialOptions
  by_cases hb : p.has_bet = true
  · rw [if_pos hb]
    dsimp only
    split
    · exact ⟨rfl, rfl, fun h => Bool.noConfusion h⟩
    · exact ⟨rfl, rfl, fun h => h⟩
  · rw [if_neg hb]
    exact ⟨rfl, rfl, fun h => h⟩

/-- Seats after a dealing sweep trace back to original seats with the same
key and hand-state flags (only hands and the deck change). -/
theorem dealPass_mem :
    ∀ (ks : List Nat) (s : GameState), ∀ kv ∈ (dealPass s ks).2.players,
      ∃ kv₀ ∈ s.players, kv.1 = kv₀.1
        ∧ kv.2.playing_split_hand = kv₀.2.playing_split_hand
        ∧ kv.2.has_split = kv₀.2.has_split
        ∧ kv.2.has_acted = kv₀.2.has_acted := by
  intro ks
  induction ks with
  | nil => intro s kv h; exact ⟨kv, h, rfl, rfl, rfl, rfl⟩
  | cons k ks ih =>
    intro s kv hkv
    unfold dealPass at hkv
    cases hgp : getPlayer s k with
    | none =>
      rw [hgp] at hkv
      exact ih s kv hkv
    | some p =>
      rw [hgp] at hkv
      dsimp only at hkv
      cases hb : p.has_bet with
      | false =>
        rw [hb, if_neg (by decide)] at hkv
        exact ih s kv hkv
      | true =>
        rw [hb, if_pos rfl] at hkv
        cases hdl : dealOne s.deck with
        | none =>
          rw [hdl] at hkv
          exact ⟨kv, hkv, rfl, rfl, rfl, rfl⟩
        | some cr =>
          obtain ⟨c, rest⟩ := cr
          rw [hdl] at hkv
          dsimp only at hkv
          obtain ⟨kv₀, hkv₀, hk1, hk2, hk3, hk4⟩ := ih _ kv hkv
          rcases mem_updateSeat s.players k _ kv₀ hkv₀ with ⟨hin, _⟩ | heq
          · exact ⟨kv₀, hin, hk1, hk2, hk3, hk4⟩
          · subst heq
            exact ⟨(k, p), lookupSeat_mem s.players k p hgp, hk1, hk2, hk3, hk4⟩

/-- Same tracing through a full dealing round (seats plus dealer card). -/
theorem dealRound_mem (s : GameState) :
    ∀ kv ∈ (dealRound s).2.players,
      ∃ kv₀ ∈ s.players, kv.1 = kv₀.1
        ∧ kv.2.playing_split_hand = kv₀.2.playing_split_hand
        ∧ kv.2.has_split = kv₀.2.has_split
        ∧ kv.2.has_acted = kv₀.2.has_acted := by
  intro kv hkv
  unfold dealRound at hkv
  rcases hp : dealPass s (sortedSeatNumbers s) with ⟨e, s1⟩
  rw [hp] at hkv
  have hmem := dealPass_mem (sortedSeatNumbers s) s
  rw [hp] at hmem
  cases e with
  | some err => exact hmem kv hkv
  | none =>
    dsimp only at hkv
    cases hd : dealOne s1.deck with
    | none =>
      rw [hd] at hkv
      exact hmem kv hkv
    | some cr =>
      obtain ⟨c, rest⟩ := cr
      rw [hd] at hkv
      dsimp only at hkv
      exact hmem kv hkv

/-- A dealing round does not change the seat keys. -/
theorem dealPass_keys :
    ∀ (ks : List Nat) (s : GameState),
      (dealPass s ks).2.players.map Prod.fst = s.players.map Prod.fst := by
  intro ks
  induction ks with
  | nil => intro s; rfl
  | cons k ks ih =>
    intro s
    unfold dealPass
    cases hgp : getPlayer s k with
    | none => exact ih s
    | some p =>
      dsimp only
      cases hb : p.has_bet with
      | false =>
        rw [if_neg (by decide)]
        exact ih s
      | true =>
        rw [if_pos rfl]
        cases hdl : dealOne s.deck with
        | none => rfl
        | some cr =>
          obtain ⟨c, rest⟩ := cr
          dsimp only
          rw [ih]
          exact keys_setPlayer _ _ _

theorem dealRound_keys (s : GameState) :
    (dealRound s).2.players.map Prod.fst = s.players.map Prod.fst := by
  unfold dealRound
  rcases hp : dealPass s (sortedSeatNumbers s) with ⟨e, s1⟩
  have hk := dealPass_keys (sortedSeatNumbers s) s
  rw [hp] at hk
  cases e with
  | some err => exact hk
  | none =>
    dsimp only
    cases hd : dealOne s1.deck with
    | none => exact hk
    | some cr =>
      obtain ⟨c, rest⟩ := cr
      dsimp only
      exact hk

/-- A list of seats whose flagged members all share one key, with
duplicate-free keys, has at most one flagged member. -/
theorem filter_length_le_one :
    ∀ (l : List (Nat × PlayerState)) (P : Nat × PlayerState → Bool) (t : Nat),
      (∀ kv ∈ l, P kv = true → kv.1 = t) → (l.map Prod.fst).Nodup →
      (l.filter P).length ≤ 1 := by
  intro l
  induction l with
  | nil => intro P t _ _; simp
  | cons hd l ih =>
    intro P t hP hnd
    rw [List.map_cons, List.nodup_cons] at hnd
    obtain ⟨hnotin, hnd'⟩ := hnd
    by_cases hPhd : P hd = true
    · rw [List.filter_cons_of_pos hPhd]
      have hfl : l.filter P = [] := by
        rw [List.filter_eq_nil_iff]
        intro kv hkv hPkv
        exact hnotin (List.mem_map.mpr ⟨kv, hkv,
          (hP kv (List.mem_cons_of_mem _ hkv) hPkv).trans
            (hP hd (List.mem_cons_self _ _) hPhd).symm⟩)
      rw [hfl]
      simp
    · rw [List.filter_cons_of_neg hPhd]
      exact ih P t (fun kv hkv => hP kv (List.mem_cons_of_mem _ hkv)) hnd'

/-- The invariant holds of a fresh game. -/
theorem inv_initGame (d : List Card) : Inv (initGame d) := by
  refine ⟨?_, ?_, ?_, ?_⟩
  · intro m hm
    exact Option.noConfusion hm
  · intro kv hmem _
    exact absurd hmem (List.not_mem_nil kv)
  · intro kv hmem _ _
    exact absurd hmem (List.not_mem_nil kv)
  · exact List.nodup_nil

/-- `add_player` preserves the invariant. -/
theorem inv_add_player (s : GameState) (n : Nat) (uid : String) (bal : Int)
    (hInv : Inv s) : Inv (add_player s n uid bal).2 := by
  unfold add_player
  by_cases h1 : 5 ≤ s.players.length
  · rw [if_pos h1]
    exact hInv
  · rw [if_neg h1]
    by_cases h2 : (lookupSeat s.players n).isSome = true
    · rw [if_pos h2]
      exact hInv
    · rw [if_neg h2]
      obtain ⟨hI1, hI2, hI3, hI4⟩ := hInv
      have hnone : lookupSeat s.players n = none := by
        cases hx : lookupSeat s.players n with
        | none => rfl
        | some q => rw [hx] at h2; exact absurd rfl h2
      have hnmem := lookupSeat_none_not_mem s.players n hnone
      refine ⟨?_, ?_, ?_, ?_⟩
      · intro m hm
        obtain ⟨hph, q, hq, hqa⟩ := hI1 m hm
        exact ⟨hph, q, lookupSeat_append_left s.players _ m q hq, hqa⟩
      · intro kv hmem hpsh
        rcases List.mem_append.mp hmem with hold | hnew
        · exact hI2 kv hold hpsh
        · have heq : kv = (n, initPlayer n uid bal) := by simpa using hnew
          rw [heq] at hpsh
          exact Bool.noConfusion hpsh
      · intro kv hmem hpsh hact
        rcases List.mem_append.mp hmem with hold | hnew
        · exact hI3 kv hold hpsh hact
        · have heq : kv = (n, initPlayer n uid bal) := by simpa using hnew
          rw [heq] at hpsh
          exact Bool.noConfusion hpsh
      · show ((s.players ++ [(n, initPlayer n uid bal)]).map Prod.fst).Nodup
        rw [List.map_append]
        refine List.nodup_append.mpr ⟨hI4, ?_, ?_⟩
        · simp
        · intro a ha hb
          have hab : a = n := by simpa using hb
          subst hab
          exact hnmem ha

/-- `start_betting_phase` preserves the invariant. -/
theorem inv_start_betting (s : GameState) (d : List Card) (hInv : Inv s) :
    Inv (start_betting_phase s d) := by
  unfold start_betting_phase
  by_cases he : s.players.isEmpty = true
  · rw [if_pos he]
    exact hInv
  · rw [if_neg he]
    dsimp only
    have key : ∀ (dk : List Card), Inv { s with
        players := s.players.map (fun kv => (kv.1, resetForRound kv.2)),
        dealer_hand := [], phase := "betting", current_player_turn := none,
        round_active := true, deck := dk } := by
      intro dk
      refine ⟨?_, ?_, ?_, ?_⟩
      · intro m hm
        exact Option.noConfusion hm
      · intro kv hmem hpsh
        obtain ⟨kv₀, hkv₀, heq⟩ := List.mem_map.mp hmem
        rw [← heq] at hpsh
        exact Bool.noConfusion hpsh
      · intro kv hmem hpsh _
        obtain ⟨kv₀, hkv₀, heq⟩ := List.mem_map.mp hmem
        rw [← heq] at hpsh
        exact Bool.noConfusion hpsh
      · show ((s.players.map (fun kv => (kv.1, resetForRound kv.2))).map Prod.fst).Nodup
        rw [keys_map_snd]
        exact hInv.2.2.2
    split
    · exact key d
    · exact key s.deck

/-- Rewriting one seat with the same hand-state flags preserves the
invariant. -/
theorem inv_setPlayer_flags (s : GameState) (n : Nat) (p p' : PlayerState)
    (hInv : Inv s) (hgp : getPlayer s n = some p)
    (hacted : p'.has_acted = p.has_acted)
    (hpsh : p'.playing_split_hand = p.playing_split_hand)
    (hsplit : p'.has_split = p.has_split) :
    Inv (setPlayer s n p') := by
  obtain ⟨hI1, hI2, hI3, hI4⟩ := hInv
  have hmem : (n, p) ∈ s.players := lookupSeat_mem s.players n p hgp
  refine ⟨?_, ?_, ?_, ?_⟩
  · intro m hm
    obtain ⟨hph, q, hq, hqa⟩ := hI1 m hm
    refine ⟨hph, ?_⟩
    by_cases hmn : m = n
    · subst hmn
      refine ⟨p', getPlayer_setPlayer_self s m p' q hq, ?_⟩
      rw [hgp] at hq
      injection hq with hq
      rw [hacted, hq]
      exact hqa
    · exact ⟨q, by rw [getPlayer_setPlayer_other s n m p' hmn]; exact hq, hqa⟩
  · intro kv hkm hk
    rcases mem_updateSeat s.players n p' kv hkm with ⟨hin, _⟩ | heq
    · exact hI2 kv hin hk
    · subst heq
      dsimp only at hk ⊢
      rw [hsplit]
      exact hI2 (n, p) hmem (by rw [← hpsh]; exact hk)
  · intro kv hkm hk ha
    rcases mem_updateSeat s.players n p' kv hkm with ⟨hin, _⟩ | heq
    · exact hI3 kv hin hk ha
    · subst heq
      dsimp only at hk ha ⊢
      exact hI3 (n, p) hmem (by rw [← hpsh]; exact hk) (by rw [← hacted]; exact ha)
  · show ((setPlayer s n p').players.map Prod.fst).Nodup
    rw [keys_setPlayer]
    exact hI4

/-- `place_bet` preserves the invariant. -/
theorem inv_place_bet (s : GameState) (n : Nat) (amount : Int) (hInv : Inv s) :
    Inv (place_bet s n amount).2 := by
  unfold place_bet
  cases hgp : getPlayer s n with
  | none => exact hInv
  | some p =>
    dsimp only
    by_cases hb : (decide (amount ≤ 0) || decide (p.balance < amount)) = true
    · rw [if_pos hb]
      exact hInv
    · rw [if_neg hb]
      exact inv_setPlayer_flags s n p _ hInv hgp rfl rfl rfl

/-- The acting seat named by the turn has not acted. -/
theorem acting_seat_unacted (s : GameState) (n : Nat) (p : PlayerState)
    (hInv : Inv s) (hturn : s.current_player_turn = some n)
    (hgp : getPlayer s n = some p) : p.has_acted = false := by
  obtain ⟨_, q, hq, hqa⟩ := hInv.1 n hturn
  rw [hgp] at hq
  injection hq with hq
  rw [hq]
  exact hqa

/-- `stand_split` preserves the invariant on success. -/
theorem inv_stand_split (s : GameState) (n : Nat) (hInv : Inv s)
    (h : (stand_split s n).1 = none) : Inv (stand_split s n).2 := by
  unfold stand_split at h ⊢
  by_cases h1 : (s.phase != "playing") = true
  · rw [if_pos h1] at h; simp at h
  · rw [if_neg h1] at h ⊢
    have hphase : s.phase = "playing" := by simpa using h1
    by_cases h2 : (s.current_player_turn != some n) = true
    · rw [if_pos h2] at h; simp at h
    · rw [if_neg h2] at h ⊢
      have hturn : s.current_player_turn = some n := by simpa using h2
      cases hgp : getPlayer s n with
      | none => rw [hgp] at h; simp at h
      | some p =>
        rw [hgp] at h
        dsimp only at h ⊢
        by_cases h3 : (!p.has_split) = true
        · rw [if_pos h3] at h; simp at h
        · rw [if_neg h3] at h ⊢
          by_cases h4 : (!p.playing_split_hand) = true
          · rw [if_pos h4] at h; simp at h
          · rw [if_neg h4] at h ⊢
            dsimp only at h ⊢
            exact inv_advance s n _ hInv hturn hphase rfl
              (fun _ => by simpa using h3)

/-- `hit_split` preserves the invariant on success. -/
theorem inv_hit_split (s : GameState) (n : Nat) (hInv : Inv s)
    (h : (hit_split s n).1 = none) : Inv (hit_split s n).2 := by
  unfold hit_split at h ⊢
  by_cases h1 : (s.phase != "playing") = true
  · rw [if_pos h1] at h; simp at h
  · rw [if_neg h1] at h ⊢
    have hphase : s.phase = "playing" := by simpa using h1
    by_cases h2 : (s.current_player_turn != some n) = true
    · rw [if_pos h2] at h; simp at h
    · rw [if_neg h2] at h ⊢
      have hturn : s.current_player_turn = some n := by simpa using h2
      cases hgp : getPlayer s n with
      | none => rw [hgp] at h; simp at h
      | some p =>
        rw [hgp] at h
        dsimp only at h ⊢
        by_cases h3 : (!p.has_split) = true
        · rw [if_pos h3] at h; simp at h
        · rw [if_neg h3] at h ⊢
          by_cases h4 : (!p.playing_split_hand) = true
          · rw [if_pos h4] at h; simp at h
          · rw [if_neg h4] at h ⊢
            cases hsh : p.split_hand with
            | none => rw [hsh] at h; simp at h
            | some sh =>
              rw [hsh] at h
              dsimp only at h ⊢
              cases hdl : dealOne s.deck with
              | none => rw [hdl] at h; simp at h
              | some cr =>
                obtain ⟨c, rest⟩ := cr
                rw [hdl] at h
                dsimp only at h ⊢
                by_cases hbust : isBust (sh ++ [c]) = true
                · rw [if_pos hbust] at h ⊢
                  rw [setPlayer_setPlayer]
                  exact inv_advance { s with deck := rest } n _
                    (inv_deck s rest hInv) hturn hphase rfl
                    (fun _ => by simpa using h3)
                · rw [if_neg hbust] at h ⊢
                  exact inv_stay { s with deck := rest } n _
                    (inv_deck s rest hInv) hturn
                    (acting_seat_unacted s n p hInv hturn hgp)
                    (fun _ => by simpa using h3)

/-- `stand` preserves the invariant on success. -/
theorem inv_stand (s : GameState) (n : Nat) (hInv : Inv s)
    (h : (stand s n).1 = none) : Inv (stand s n).2 := by
  unfold stand at h ⊢
  by_cases h1 : (s.phase != "playing") = true
  · rw [if_pos h1] at h; simp at h
  · rw [if_neg h1] at h ⊢
    have hphase : s.phase = "playing" := by simpa using h1
    by_cases h2 : (s.current_player_turn != some n) = true
    · rw [if_pos h2] at h; simp at h
    · rw [if_neg h2] at h ⊢
      have hturn : s.current_player_turn = some n := by simpa using h2
      cases hgp : getPlayer s n with
      | none => rw [hgp] at h; simp at h
      | some p =>
        rw [hgp] at h
        dsimp only at h ⊢
        by_cases h3 : (p.has_split && p.playing_split_hand) = true
        · rw [if_pos h3] at h ⊢
          exact inv_stand_split s n hInv h
        · rw [if_neg h3] at h ⊢
          by_cases h5 : p.has_split = true
          · rw [if_pos h5] at h ⊢
            exact inv_stay s n _ hInv hturn
              (acting_seat_unacted s n p hInv hturn hgp) (fun _ => h5)
          · rw [if_neg h5] at h ⊢
            dsimp only at h ⊢
            exact inv_advance s n _ hInv hturn hphase rfl
              (fun hp => hInv.2.1 (n, p) (lookupSeat_mem s.players n p hgp) hp)

/-- `hit` preserves the invariant on success. -/
theorem inv_hit (s : GameState) (n : Nat) (hInv : Inv s)
    (h : (hit s n).1 = none) : Inv (hit s n).2 := by
  unfold hit at h ⊢
  by_cases h1 : (s.phase != "playing") = true
  · rw [if_pos h1] at h; simp at h
  · rw [if_neg h1] at h ⊢
    have hphase : s.phase = "playing" := by simpa using h1
    by_cases h2 : (s.current_player_turn != some n) = true
    · rw [if_pos h2] at h; simp at h
    · rw [if_neg h2] at h ⊢
      have hturn : s.current_player_turn = some n := by simpa using h2
      cases hgp : getPlayer s n with
      | none => rw [hgp] at h; simp at h
      | some p =>
        rw [hgp] at h
        dsimp only at h ⊢
        by_cases h3 : (p.has_split && p.playing_split_hand) = true
        · rw [if_pos h3] at h ⊢
          exact inv_hit_split s n hInv h
        · rw [if_neg h3] at h ⊢
          cases hdl : dealOne s.deck with
          | none => rw [hdl] at h; simp at h
          | some cr =>
            obtain ⟨c, rest⟩ := cr
            rw [hdl] at h
            dsimp only at h ⊢
            by_cases hbust : isBust (p.hand ++ [c]) = true
            · rw [if_pos hbust] at h ⊢
              by_cases h5 : p.has_split = true
              · rw [if_pos h5] at h ⊢
                rw [setPlayer_setPlayer]
                exact inv_stay { s with deck := rest } n _
                  (inv_deck s rest hInv) hturn
                  (acting_seat_unacted s n p hInv hturn hgp) (fun _ => h5)
              · rw [if_neg h5] at h ⊢
                dsimp only at h ⊢
                rw [setPlayer_setPlayer]
                exact inv_advance { s with deck := rest } n _
                  (inv_deck s rest hInv) hturn hphase rfl
                  (fun hp => hInv.2.1 (n, p) (lookupSeat_mem s.players n p hgp) hp)
            · rw [if_neg hbust] at h ⊢
              exact inv_stay { s with deck := rest } n _
                (inv_deck s rest hInv) hturn
                (acting_seat_unacted s n p hInv hturn hgp)
                (fun hp => hInv.2.1 (n, p) (lookupSeat_mem s.players n p hgp) hp)

/-- Changing the deck commutes with rewriting a seat. -/
theorem setPlayer_deck (s : GameState) (n : Nat) (p : PlayerState) (d : List Card) :
    { setPlayer s n p with deck := d } = setPlayer { s with deck := d } n p := rfl

/-- Rewriting a seat does not change the deck. -/
theorem deck_setPlayer (s : GameState) (n : Nat) (p : PlayerState) :
    (setPlayer s n p).deck = s.deck := rfl

/-- `double_down` preserves the invariant on success. -/
theorem inv_double_down (s : GameState) (n : Nat) (hInv : Inv s)
    (h : (double_down s n).1 = none) : Inv (double_down s n).2 := by
  unfold double_down at h ⊢
  by_cases h1 : (s.phase != "playing") = true
  · rw [if_pos h1] at h; simp at h
  · rw [if_neg h1] at h ⊢
    have hphase : s.phase = "playing" := by simpa using h1
    by_cases h2 : (s.current_player_turn != some n) = true
    · rw [if_pos h2] at h; simp at h
    · rw [if_neg h2] at h ⊢
      have hturn : s.current_player_turn = some n := by simpa using h2
      cases hgp : getPlayer s n with
      | none => rw [hgp] at h; simp at h
      | some p =>
        rw [hgp] at h
        dsimp only at h ⊢
        by_cases h3 : (p.has_split && p.playing_split_hand) = true
        · rw [if_pos h3] at h ⊢
          have h3' := h3
          rw [Bool.and_eq_true] at h3'
          by_cases h4 : (!p.can_double_down) = true
          · rw [if_pos h4] at h; simp at h
          · rw [if_neg h4] at h ⊢
            by_cases h5 : p.balance < p.split_bet
            · rw [if_pos h5] at h; simp at h
            · rw [if_neg h5] at h ⊢
              cases hsh : p.split_hand with
              | none => rw [hsh] at h; simp at h
              | some sh =>
                rw [hsh] at h
                dsimp only at h ⊢
                rw [deck_setPlayer] at h ⊢
                cases hdl : dealOne s.deck with
                | none => rw [hdl] at h; simp at h
                | some cr =>
                  obtain ⟨c, rest⟩ := cr
                  rw [hdl] at h
                  dsimp only at h ⊢
                  by_cases hbust : isBust (sh ++ [c]) = true
                  · rw [if_pos hbust]
                    rw [setPlayer_deck, setPlayer_setPlayer]
                    exact inv_advance { s with deck := rest } n _
                      (inv_deck s rest hInv) hturn hphase rfl (fun _ => h3'.1)
                  · rw [if_neg hbust]
                    rw [setPlayer_deck, setPlayer_setPlayer]
                    exact inv_advance { s with deck := rest } n _
                      (inv_deck s rest hInv) hturn hphase rfl (fun _ => h3'.1)
        · rw [if_neg h3] at h ⊢
          by_cases h4 : (!p.can_double_down) = true
          · rw [if_pos h4] at h; simp at h
          · rw [if_neg h4] at h ⊢
            by_cases h5 : p.balance < p.current_bet
            · rw [if_pos h5] at h; simp at h
            · rw [if_neg h5] at h ⊢
              cases hdl : dealOne s.deck with
              | none => rw [hdl] at h; simp at h
              | some cr =>
                obtain ⟨c, rest⟩ := cr
                rw [hdl] at h
                dsimp only at h ⊢
                by_cases hbust : isBust (p.hand ++ [c]) = true
                · rw [if_pos hbust] at h ⊢
                  by_cases h6 : p.has_split = true
                  · rw [if_pos h6] at h ⊢
                    rw [setPlayer_setPlayer]
                    exact inv_stay { s with deck := rest } n _
                      (inv_deck s rest hInv) hturn
                      (acting_seat_unacted s n p hInv hturn hgp) (fun _ => h6)
                  · rw [if_neg h6] at h ⊢
                    rw [setPlayer_setPlayer]
                    exact inv_advance { s with deck := rest } n _
                      (inv_deck s rest hInv) hturn hphase rfl
                      (fun hp => hInv.2.1 (n, p) (lookupSeat_mem s.players n p hgp) hp)
                · rw [if_neg hbust] at h ⊢
                  by_cases h6 : p.has_split = true
                  · rw [if_pos h6] at h ⊢
                    rw [setPlayer_setPlayer]
                    exact inv_stay { s with deck := rest } n _
                      (inv_deck s rest hInv) hturn
                      (acting_seat_unacted s n p hInv hturn hgp) (fun _ => h6)
                  · rw [if_neg h6] at h ⊢
                    rw [setPlayer_setPlayer]
                    exact inv_advance { s with deck := rest } n _
                      (inv_deck s rest hInv) hturn hphase rfl
                      (fun hp => hInv.2.1 (n, p) (lookupSeat_mem s.players n p hgp) hp)

/-- `split` preserves the invariant on success. -/
theorem inv_split (s : GameState) (n : Nat) (hInv : Inv s)
    (h : (split s n).1 = none) : Inv (split s n).2 := by
  unfold split at h ⊢
  by_cases h1 : (s.phase != "playing") = true
  · rw [if_pos h1] at h; simp at h
  · rw [if_neg h1] at h ⊢
    have hphase : s.phase = "playing" := by simpa using h1
    by_cases h2 : (s.current_player_turn != some n) = true
    · rw [if_pos h2] at h; simp at h
    · rw [if_neg h2] at h ⊢
      have hturn : s.current_player_turn = some n := by simpa using h2
      cases hgp : getPlayer s n with
      | none => rw [hgp] at h; simp at h
      | some p =>
        rw [hgp] at h
        dsimp only at h ⊢
        by_cases h3 : (!p.can_split) = true
        · rw [if_pos h3] at h; simp at h
        · rw [if_neg h3] at h ⊢
          by_cases h4 : p.balance < p.current_bet
          · rw [if_pos h4] at h; simp at h
          · rw [if_neg h4] at h ⊢
            by_cases h5 : p.has_split = true
            · rw [if_pos h5] at h; simp at h
            · rw [if_neg h5] at h ⊢
              rcases hh : p.hand with _ | ⟨c0, _ | ⟨c1, restH⟩⟩
              · rw [hh] at h; simp at h
              · rw [hh] at h; simp at h
              · rw [hh] at h
                dsimp only at h ⊢
                rw [deck_setPlayer] at h ⊢
                cases hdA : dealOne s.deck with
                | none => rw [hdA] at h; simp at h
                | some crA =>
                  obtain ⟨cA, dA⟩ := crA
                  rw [hdA] at h
                  dsimp only at h ⊢
                  rw [deck_setPlayer] at h ⊢
                  dsimp only at h ⊢
                  cases hdB : dealOne dA with
                  | none => rw [hdB] at h; simp at h
                  | some crB =>
                    obtain ⟨cB, dB⟩ := crB
                    rw [hdB] at h
                    dsimp only at h ⊢
                    by_cases hbj : isBlackjack ((c0 :: restH) ++ [cA]) = true
                    · rw [if_pos hbj]
                      rw [setPlayer_deck, setPlayer_deck, setPlayer_setPlayer,
                        setPlayer_setPlayer]
                      exact inv_stay { s with deck := dB } n _
                        (inv_deck s dB hInv) hturn
                        (by exact acting_seat_unacted s n p hInv hturn hgp)
                        (by intro hp; exact Bool.noConfusion hp)
                    · rw [if_neg hbj]
                      rw [setPlayer_deck, setPlayer_deck, setPlayer_setPlayer,
                        setPlayer_setPlayer]
                      exact inv_stay { s with deck := dB } n _
                        (inv_deck s dB hInv) hturn
                        (by exact acting_seat_unacted s n p hInv hturn hgp)
                        (by intro hp; exact Bool.noConfusion hp)

/-- Outside the playing phase, the invariant forces a null turn. -/
theorem turn_none_of_phase (s : GameState) (hInv : Inv s)
    (hph : s.phase ≠ "playing") : s.current_player_turn = none := by
  cases ht : s.current_player_turn with
  | none => rfl
  | some m =>
    obtain ⟨hp, _⟩ := hInv.1 m ht
    exact absurd hp hph

/-- Outside the playing phase, a seat flagged on its split hand has acted. -/
theorem psh_acted_of_phase (s : GameState) (hInv : Inv s)
    (hph : s.phase ≠ "playing") :
    ∀ kv ∈ s.players, kv.2.playing_split_hand = true → kv.2.has_acted = true := by
  intro kv hm hp
  cases hact : kv.2.has_acted with
  | true => rfl
  | false =>
    have ht := hInv.2.2.1 kv hm hp hact
    rw [turn_none_of_phase s hInv hph] at ht
    exact Option.noConfusion ht

/-- `start_playing_phase` preserves the invariant on success. -/
theorem inv_start_playing (s : GameState) (hInv : Inv s)
    (h : (start_playing_phase s).1 = none) : Inv (start_playing_phase s).2 := by
  unfold start_playing_phase at h ⊢
  by_cases h1 : (s.phase != "betting" || !all_bets_placed s) = true
  · rw [if_pos h1] at h; simp at h
  · rw [if_neg h1] at h ⊢
    have hphase : s.phase = "betting" := by
      simp only [Bool.or_eq_true, bne_iff_ne, ne_eq, Bool.not_eq_true] at h1
      by_contra hc
      exact h1 (Or.inl hc)
    have hnotplay : s.phase ≠ "playing" := by rw [hphase]; decide
    have hturnNone := turn_none_of_phase s hInv hnotplay
    have hnps := psh_acted_of_phase s hInv hnotplay
    rcases hd1 : dealRound s with ⟨e1, s1⟩
    rw [hd1] at h
    have hmA := dealRound_mem s
    rw [hd1] at hmA
    have hfA := dealRound_fields s
    rw [hd1] at hfA
    have hkA := dealRound_keys s
    rw [hd1] at hkA
    dsimp only at hmA hfA hkA
    cases e1 with
    | some err => simp at h
    | none =>
      dsimp only at h ⊢
      rcases hd2 : dealRound s1 with ⟨e2, s2⟩
      rw [hd2] at h
      have hmB := dealRound_mem s1
      rw [hd2] at hmB
      have hfB := dealRound_fields s1
      rw [hd2] at hfB
      have hkB := dealRound_keys s1
      rw [hd2] at hkB
      dsimp only at hmB hfB hkB
      cases e2 with
      | some err => simp at h
      | none =>
        dsimp only at h ⊢
        have hmem2 : ∀ kv ∈ s2.players, ∃ kv₀ ∈ s.players, kv.1 = kv₀.1
            ∧ kv.2.playing_split_hand = kv₀.2.playing_split_hand
            ∧ kv.2.has_split = kv₀.2.has_split
            ∧ kv.2.has_acted = kv₀.2.has_acted := by
          intro kv hkv
          obtain ⟨kvb, hkvb, hk1, hk2, hk3, hk4⟩ := hmB kv hkv
          obtain ⟨kva, hkva, hj1, hj2, hj3, hj4⟩ := hmA kvb hkvb
          exact ⟨kva, hkva, hk1.trans hj1, hk2.trans hj2, hk3.trans hj3,
            hk4.trans hj4⟩
        have hturn2 : s2.current_player_turn = none :=
          hfB.1.trans (hfA.1.trans hturnNone)
        have hkeys2 : s2.players.map Prod.fst = s.players.map Prod.fst :=
          hkB.trans hkA
        by_cases hbj : isBlackjack s2.dealer_hand = true
        · rw [if_pos hbj]
          refine ⟨?_, ?_, ?_, ?_⟩
          · intro m hm
            have hm' : s2.current_player_turn = some m := hm
            rw [hturn2] at hm'
            exact Option.noConfusion hm'
          · intro kv hmem hpsh
            obtain ⟨kv₀, hkv₀, heq⟩ := List.mem_map.mp hmem
            rw [← heq] at hpsh ⊢
            dsimp only at hpsh ⊢
            obtain ⟨hps, hhs, hha⟩ := resolveDealerNatural_flags kv₀.2
            rw [hps] at hpsh
            rw [hhs]
            obtain ⟨kva, hkva, _, hj2, hj3, _⟩ := hmem2 kv₀ hkv₀
            rw [hj3]
            exact hInv.2.1 kva hkva (by rw [← hj2]; exact hpsh)
          · intro kv hmem hpsh hact
            obtain ⟨kv₀, hkv₀, heq⟩ := List.mem_map.mp hmem
            rw [← heq] at hpsh hact
            dsimp only at hpsh hact
            obtain ⟨hps, hhs, hha⟩ := resolveDealerNatural_flags kv₀.2
            rw [hps] at hpsh
            have hact0 := hha hact
            obtain ⟨kva, hkva, _, hj2, _, hj4⟩ := hmem2 kv₀ hkv₀
            have hpsA : kva.2.playing_split_hand = true := by
              rw [← hj2]; exact hpsh
            have hacA : kva.2.has_acted = false := by
              rw [← hj4]; exact hact0
            rw [hnps kva hkva hpsA] at hacA
            exact Bool.noConfusion hacA
          · show ((s2.players.map
                (fun kv => (kv.1, resolveDealerNatural kv.2))).map Prod.fst).Nodup
            rw [keys_map_snd, hkeys2]
            exact hInv.2.2.2
        · rw [if_neg hbj]
          dsimp only
          refine ⟨?_, ?_, ?_, ?_⟩
          · intro m hm
            refine ⟨rfl, ?_⟩
            obtain ⟨q, hq, hqa, _, _⟩ := nextTurn_some_pending _ none m hm
            exact ⟨q, hq, hqa⟩
          · intro kv hmem hpsh
            obtain ⟨kv₀, hkv₀, heq⟩ := List.mem_map.mp hmem
            rw [← heq] at hpsh ⊢
            dsimp only at hpsh ⊢
            obtain ⟨hps, hhs, hha⟩ := setInitialOptions_flags kv₀.2
            rw [hps] at hpsh
            rw [hhs]
            obtain ⟨kva, hkva, _, hj2, hj3, _⟩ := hmem2 kv₀ hkv₀
            rw [hj3]
            exact hInv.2.1 kva hkva (by rw [← hj2]; exact hpsh)
          · intro kv hmem hpsh hact
            obtain ⟨kv₀, hkv₀, heq⟩ := List.mem_map.mp hmem
            rw [← heq] at hpsh hact
            dsimp only at hpsh hact
            obtain ⟨hps, hhs, hha⟩ := setInitialOptions_flags kv₀.2
            rw [hps] at hpsh
            have hact0 := hha hact
            obtain ⟨kva, hkva, _, hj2, _, hj4⟩ := hmem2 kv₀ hkv₀
            have hpsA : kva.2.playing_split_hand = true := by
              rw [← hj2]; exact hpsh
            have hacA : kva.2.has_acted = false := by
              rw [← hj4]; exact hact0
            rw [hnps kva hkva hpsA] at hacA
            exact Bool.noConfusion hacA
          · show ((s2.players.map
                (fun kv => (kv.1, setInitialOptions kv.2))).map Prod.fst).Nodup
            rw [keys_map_snd, hkeys2]
            exact hInv.2.2.2

/-- `dealer_play` preserves the invariant on success. -/
theorem inv_dealer_play (s : GameState) (hInv : Inv s)
    (h : (dealer_play s).1 = none) : Inv (dealer_play s).2 := by
  unfold dealer_play at h ⊢
  by_cases h1 : (s.phase != "dealer_turn") = true
  · rw [if_pos h1] at h; simp at h
  · rw [if_neg h1] at h ⊢
    have hphase : s.phase = "dealer_turn" := by simpa using h1
    have hnotplay : s.phase ≠ "playing" := by rw [hphase]; decide
    have hturnNone := turn_none_of_phase s hInv hnotplay
    have hnps := psh_acted_of_phase s hInv hnotplay
    rcases hdd : dealerDraw s.dealer_hand s.deck with ⟨e, pr⟩
    obtain ⟨dealer, deck⟩ := pr
    rw [hdd] at h
    cases e with
    | some err => simp at h
    | none =>
      dsimp only at h ⊢
      refine ⟨?_, ?_, ?_, ?_⟩
      · intro m hm
        have hm' : s.current_player_turn = some m := hm
        rw [hturnNone] at hm'
        exact Option.noConfusion hm'
      · intro kv hmem hpsh
        obtain ⟨kv₀, hkv₀, heq⟩ := List.mem_map.mp hmem
        rw [← heq] at hpsh ⊢
        dsimp only at hpsh ⊢
        obtain ⟨hs1, hs2, hs3⟩ := settleSplit_flags (calculateValue dealer)
          (isBust dealer) (isBlackjack dealer)
          (settlePrimary (calculateValue dealer) (isBust dealer)
            (isBlackjack dealer) kv₀.2)
        obtain ⟨hp1, hp2, hp3⟩ := settlePrimary_flags (calculateValue dealer)
          (isBust dealer) (isBlackjack dealer) kv₀.2
        rw [hs1, hp1] at hpsh
        rw [hs2, hp2]
        exact hInv.2.1 kv₀ hkv₀ hpsh
      · intro kv hmem hpsh hact
        obtain ⟨kv₀, hkv₀, heq⟩ := List.mem_map.mp hmem
        rw [← heq] at hpsh hact
        dsimp only at hpsh hact
        obtain ⟨hs1, hs2, hs3⟩ := settleSplit_flags (calculateValue dealer)
          (isBust dealer) (isBlackjack dealer)
          (settlePrimary (calculateValue dealer) (isBust dealer)
            (isBlackjack dealer) kv₀.2)
        obtain ⟨hp1, hp2, hp3⟩ := settlePrimary_flags (calculateValue dealer)
          (isBust dealer) (isBlackjack dealer) kv₀.2
        rw [hs1, hp1] at hpsh
        rw [hs3, hp3] at hact
        rw [hnps kv₀ hkv₀ hpsh] at hact
        exact Bool.noConfusion hact
      · show ((s.players.map _).map Prod.fst).Nodup
        rw [List.map_map]
        exact hInv.2.2.2

/-- Every reachable state satisfies the inductive invariant. -/
theorem inv_reachable : ∀ (s : GameState), Reachable s → Inv s := by
  intro s h
  induction h with
  | init d hd => exact inv_initGame d
  | addPlayerStep t n uid bal hr ih => exact inv_add_player t n uid bal ih
  | startBettingStep t d hd hr ih => exact inv_start_betting t d ih
  | placeBetStep t n amount hr ih => exact inv_place_bet t n amount ih
  | startPlayingStep t hr hs ih => exact inv_start_playing t ih hs
  | hitStep t n hr hs ih => exact inv_hit t n ih hs
  | standStep t n hr hs ih => exact inv_stand t n ih hs
  | doubleDownStep t n hr hs ih => exact inv_double_down t n ih hs
  | splitStep t n hr hs ih => exact inv_split t n ih hs
  | hitSplitStep t n hr hs ih => exact inv_hit_split t n ih hs
  | standSplitStep t n hr hs ih => exact inv_stand_split t n ih hs
  | dealerPlayStep t hr hs ih => exact inv_dealer_play t ih hs

/-- **C5 (corrected).** On every reachable state the turn discipline that
actually holds is: a non-null `currentTurn` implies the phase is `playing`
and names an existing seat that has not acted (the converse direction of the
specification's iff fails, e.g. after a lone natural); a seat flagged
`playing_split_hand` always `has_split`; and at most one seat is actively
playing a split hand (flag set and not yet acted) — but, contrary to the
specification, finished seats keep the flag, so several seats can carry
`playing_split_hand` at once. -/
theorem c5_turn_invariant (s : GameState) (h : Reachable s) :
    TurnTargetsUnactedSeat s ∧ SplitFlagInv s ∧
    (s.players.filter
      (fun kv => kv.2.playing_split_hand && !kv.2.has_acted)).length ≤ 1 := by
  obtain ⟨hI1, hI2, hI3, hI4⟩ := inv_reachable s h
  refine ⟨hI1, hI2, ?_⟩
  cases ht : s.current_player_turn with
  | none =>
    have hnil : s.players.filter
        (fun kv => kv.2.playing_split_hand && !kv.2.has_acted) = [] := by
      rw [List.filter_eq_nil_iff]
      intro kv hkv hP
      rw [Bool.and_eq_true, Bool.not_eq_true'] at hP
      have hc := hI3 kv hkv hP.1 hP.2
      rw [ht] at hc
      exact Option.noConfusion hc
    rw [hnil]
    simp
  | some t0 =>
    refine filter_length_le_one s.players _ t0 ?_ hI4
    intro kv hkv hP
    rw [Bool.and_eq_true, Bool.not_eq_true'] at hP
    have hc := hI3 kv hkv hP.1 hP.2
    rw [ht] at hc
    injection hc with hc
    exact hc.symm

/-- The corrected turn invariant instantiated on the freshly initialized
game, which is reachable outright. -/
theorem c5_witness :
    Reachable (initGame sixDeckShoe) ∧
    (TurnTargetsUnactedSeat (initGame sixDeckShoe) ∧
      SplitFlagInv (initGame sixDeckShoe) ∧
      ((initGame sixDeckShoe).players.filter
        (fun kv => kv.2.playing_split_hand && !kv.2.has_acted)).length ≤ 1) :=
  ⟨Reachable.init sixDeckShoe (List.Perm.refl _),
   c5_turn_invariant (initGame sixDeckShoe)
     (Reachable.init sixDeckShoe (List.Perm.refl _))⟩

end Blackjack
